import Mathlib

/-!
# easy-qfnu-xk-monitor: the monitoring core

A shallow embedding of `pkg/jwxt/search.go`, `pkg/notify/onebot.go` and
`pkg/monitor/monitor.go`, followed by theorems about the diff engine, the
poll cycle, the snapshot store and session recovery.

Conventions of the embedding

* A Go `string` is a Lean `String`.  Go compares strings bytewise over their
  UTF-8 encoding, which orders strings exactly as the code points do, so `<`
  on `String` is Go's `<`.
* A Go `map[string]V` is an association list `GoMap V` with pairwise distinct
  keys.  The order of the list stands for the order in which a `range` loop
  happens to visit the map; theorems quantify over all such lists.
* The `int` fields of a record are `GoInt`, the integers of the 64-bit range;
  decoding a JSON number outside it fails, as in `encoding/json`.  Values of
  `time.Duration` are `Int`; no arithmetic in the modelled code can leave the
  64-bit range (see `backoff_bounds`).
-/

set_option autoImplicit false
set_option maxRecDepth 100000

/-! ## Go strings -/

/-- Lexicographic comparison of two code point sequences. -/
def lessChars : List Char → List Char → Bool
  | _, [] => false
  | [], _ :: _ => true
  | a :: as, b :: bs => if a = b then lessChars as bs else decide (a.toNat < b.toNat)

/-- Go's `a < b` on strings. -/
def stringLess (a b : String) : Bool := lessChars a.data b.data

/-! ## Go maps -/

/-- A Go `map[string]V`: association list, keys pairwise distinct. -/
abbrev GoMap (V : Type) := List (String × V)

namespace GoMap

variable {V : Type}

/-- The keys of the map, in iteration order. -/
def keys (m : GoMap V) : List String := m.map Prod.fst

/-- Go's `v, ok := m[k]`. -/
def get? : GoMap V → String → Option V
  | [], _ => none
  | (k', v) :: rest, k => if k' = k then some v else get? rest k

/-- Go's `m[k] = v`: overwrite the entry of `k` when there is one, add it otherwise. -/
def set : GoMap V → String → V → GoMap V
  | [], k, v => [(k, v)]
  | (k', v') :: rest, k, v => if k' = k then (k, v) :: rest else (k', v') :: set rest k v

/-- Well-formedness of a map value: no key occurs twice. -/
def WF (m : GoMap V) : Prop := (keys m).Nodup

instance (m : GoMap V) : Decidable (WF m) := by unfold WF; infer_instance

end GoMap

/-! ## Package jwxt: records and their composite key -/

namespace jwxt

/-- Go's `unicode.IsSpace`: the Latin-1 white space characters and the other
code points with the Unicode White_Space property. -/
def isSpace (c : Char) : Bool :=
  let n := c.toNat
  n = 0x09 || n = 0x0A || n = 0x0B || n = 0x0C || n = 0x0D || n = 0x20 ||
  n = 0x85 || n = 0xA0 || n = 0x1680 || (0x2000 ≤ n && n ≤ 0x200A) ||
  n = 0x2028 || n = 0x2029 || n = 0x202F || n = 0x205F || n = 0x3000

/-- Go's `strings.TrimSpace`: drop leading and trailing white space. -/
def TrimSpace (s : String) : String :=
  ⟨((s.data.dropWhile isSpace).reverse.dropWhile isSpace).reverse⟩

/-- The values of Go's `int` on the 64-bit platforms the program is built for. -/
def GoInt.InRange (n : Int) : Prop := -9223372036854775808 ≤ n ∧ n ≤ 9223372036854775807

instance (n : Int) : Decidable (GoInt.InRange n) := by unfold GoInt.InRange; infer_instance

/-- Go's `int`: an integer of 64 bits. -/
abbrev GoInt := { n : Int // GoInt.InRange n }

/-- CourseInfo: one record of the search interface (search.go, lines 35-48). -/
structure CourseInfo where
  Kch : String
  Kcmc : String
  Skls : String
  Syrs : String
  Jx0404id : String
  Jx02id : String
  Sksj : String
  Xkrs : GoInt
  Pkrs : GoInt
  Dwmc : String
  Ktmc : String
  Skdd : String
  deriving DecidableEq, Repr

/-- UniqueKey: `{jx02id}_{jx0404id}`, both trimmed (search.go, lines 51-53). -/
def CourseInfo.UniqueKey (c : CourseInfo) : String :=
  TrimSpace c.Jx02id ++ "_" ++ TrimSpace c.Jx0404id

/-- The zero value of `CourseInfo`. -/
def CourseInfo.zero : CourseInfo :=
  { Kch := "", Kcmc := "", Skls := "", Syrs := "", Jx0404id := "", Jx02id := "",
    Sksj := "", Xkrs := ⟨0, by decide⟩, Pkrs := ⟨0, by decide⟩, Dwmc := "", Ktmc := "", Skdd := "" }

end jwxt

open jwxt

/-- A snapshot: `map[string]jwxt.CourseInfo`. -/
abbrev Snapshot := GoMap CourseInfo

/-! ## Go errors -/

/-- A Go `error` value: the sentinels the code compares against, any other
error, and `fmt.Errorf` with a `%w` verb around an inner error (`msg` is the
rest of the formatted text). -/
inductive GoError where
  | ErrSessionExpired
  | ErrNotExist
  | Canceled
  | other (msg : String)
  | wrap (msg : String) (err : GoError)
  deriving DecidableEq, Repr

/-- Go's `errors.Is(err, target)` for a sentinel `target`: walk the chain of
wrapped errors and compare each link with `target`. -/
def GoError.Is : GoError → GoError → Bool
  | .wrap _ err, target => GoError.Is err target
  | err, target => decide (err = target)

deriving instance DecidableEq for Except

/-- What `ctx.Err()` returns once the context of `signal.NotifyContext` is done. -/
def ctxErr : GoError := GoError.Canceled

namespace jwxt

/-- ErrSessionExpired (search.go, line 22). -/
def ErrSessionExpired : GoError := GoError.ErrSessionExpired

/-- IsSessionExpired (search.go, lines 154-156). -/
def IsSessionExpired (err : GoError) : Bool := GoError.Is err ErrSessionExpired

/-- ModuleTypes (search.go, lines 25-31). -/
def ModuleTypes : List String :=
  ["xsxkKnjxk", "xsxkBxqjhxk", "xsxkXxxk", "xsxkFawxk", "xsxkGgxxkxk"]

end jwxt

/-! ## time.Duration -/

/-- Go's `time.Millisecond`, in nanoseconds. -/
def Millisecond : Int := 1000000
/-- Go's `time.Second`, in nanoseconds. -/
def Second : Int := 1000 * Millisecond
/-- Go's `time.Minute`, in nanoseconds. -/
def Minute : Int := 60 * Second

/-! ## JSON documents

`encoding/json` is modelled in two layers.  The text layer (bytes to and from a
document tree) belongs to the library and is a parameter of the environment.
The object layer, which the declaration of `CourseInfo` and its field tags
determine, is modelled here. -/

/-- The bytes of a file. -/
abbrev Bytes := List UInt8

/-- A JSON value where a field of `CourseInfo` is expected: `other` stands for
every value that is neither `null`, a string nor an integer literal. -/
inductive JScalar where
  | null
  | str (s : String)
  | int (n : Int)
  | other
  deriving DecidableEq, Repr

/-- A JSON value where a `CourseInfo` is expected. -/
inductive JEntry where
  | null
  | obj (fields : List (String × JScalar))
  | other
  deriving DecidableEq, Repr

/-- A JSON document where a `map[string]CourseInfo` is expected. -/
inductive JDoc where
  | null
  | obj (entries : List (String × JEntry))
  | other
  deriving DecidableEq, Repr

namespace jwxt

/-- The fields of `CourseInfo`, in declaration order. -/
inductive Field where
  | Kch | Kcmc | Skls | Syrs | Jx0404id | Jx02id | Sksj | Xkrs | Pkrs | Dwmc | Ktmc | Skdd
  deriving DecidableEq, Repr

/-- The `json:"..."` tag of each field (search.go, lines 36-47). -/
def Field.tag : Field → String
  | .Kch => "kch" | .Kcmc => "kcmc" | .Skls => "skls" | .Syrs => "syrs"
  | .Jx0404id => "jx0404id" | .Jx02id => "jx02id" | .Sksj => "sksj"
  | .Xkrs => "xkrs" | .Pkrs => "pkrs" | .Dwmc => "dwmc" | .Ktmc => "ktmc" | .Skdd => "skdd"

/-- All fields, in declaration order. -/
def Field.all : List Field :=
  [.Kch, .Kcmc, .Skls, .Syrs, .Jx0404id, .Jx02id, .Sksj, .Xkrs, .Pkrs, .Dwmc, .Ktmc, .Skdd]

/-- The value of a field as a JSON value; no tag carries `omitempty`, so zero
values are written like any other. -/
def CourseInfo.getField (c : CourseInfo) : Field → JScalar
  | .Kch => .str c.Kch | .Kcmc => .str c.Kcmc | .Skls => .str c.Skls | .Syrs => .str c.Syrs
  | .Jx0404id => .str c.Jx0404id | .Jx02id => .str c.Jx02id | .Sksj => .str c.Sksj
  | .Xkrs => .int c.Xkrs.val | .Pkrs => .int c.Pkrs.val
  | .Dwmc => .str c.Dwmc | .Ktmc => .str c.Ktmc | .Skdd => .str c.Skdd

/-- Decode one JSON value into a field: `null` leaves the field alone; a value
of the wrong kind, or an integer that does not fit Go's `int`, is an
`UnmarshalTypeError`. -/
def CourseInfo.setField (c : CourseInfo) : Field → JScalar → Except GoError CourseInfo
  | _, .null => .ok c
  | .Kch, .str s => .ok { c with Kch := s }
  | .Kcmc, .str s => .ok { c with Kcmc := s }
  | .Skls, .str s => .ok { c with Skls := s }
  | .Syrs, .str s => .ok { c with Syrs := s }
  | .Jx0404id, .str s => .ok { c with Jx0404id := s }
  | .Jx02id, .str s => .ok { c with Jx02id := s }
  | .Sksj, .str s => .ok { c with Sksj := s }
  | .Xkrs, .int n =>
    if h : GoInt.InRange n then .ok { c with Xkrs := ⟨n, h⟩ }
    else .error (.other "json: cannot unmarshal number into field xkrs of type int")
  | .Pkrs, .int n =>
    if h : GoInt.InRange n then .ok { c with Pkrs := ⟨n, h⟩ }
    else .error (.other "json: cannot unmarshal number into field pkrs of type int")
  | .Dwmc, .str s => .ok { c with Dwmc := s }
  | .Ktmc, .str s => .ok { c with Ktmc := s }
  | .Skdd, .str s => .ok { c with Skdd := s }
  | f, _ => .error (.other ("json: cannot unmarshal value into field " ++ f.tag))

/-- Case folding of `encoding/json` for field names: upper to lower case, and the
two code points outside ASCII that fold onto an ASCII letter. -/
def foldChar (c : Char) : Char :=
  if c.toNat = 0x017F then 's' else if c.toNat = 0x212A then 'k' else c.toLower

/-- Whether two names are equal under case folding. -/
def equalFold (a b : String) : Bool := a.data.map foldChar = b.data.map foldChar

/-- The field an object key is decoded into: the field whose tag is the key, or
else the first field whose tag equals the key under case folding. -/
def Field.ofKey (key : String) : Option Field :=
  match Field.all.find? (fun f => f.tag = key) with
  | some f => some f
  | none => Field.all.find? (fun f => equalFold f.tag key)

/-- Encode a record: one member per field, under its tag. -/
def CourseInfo.toJSON (c : CourseInfo) : JEntry :=
  .obj (Field.all.map (fun f => (f.tag, c.getField f)))

/-- Decode the members of an object into a record, in order; unknown keys are
skipped. -/
def CourseInfo.decodeFields : List (String × JScalar) → CourseInfo → Except GoError CourseInfo
  | [], c => .ok c
  | (key, v) :: rest, c =>
    match Field.ofKey key with
    | none => CourseInfo.decodeFields rest c
    | some f =>
      match c.setField f v with
      | .error err => .error err
      | .ok c => CourseInfo.decodeFields rest c

/-- Decode a JSON value into a fresh record. -/
def CourseInfo.fromJSON : JEntry → Except GoError CourseInfo
  | .null => .ok CourseInfo.zero
  | .obj fields => CourseInfo.decodeFields fields CourseInfo.zero
  | .other => .error (.other "json: cannot unmarshal value into CourseInfo")

end jwxt

/-! ## Package monitor: state and the diff engine -/

/-- Config: the fields of `config.Config` the monitor reads. -/
structure Config where
  Username : String
  Password : String
  CourseList : List String
  PollInterval : Int
  deriving DecidableEq, Repr

/-- Monitor: the in-memory monitor state (monitor.go, lines 26-34).  `client` is
the handle of the authenticated HTTP client; `casClient` and `notifier` are
external collaborators and are reached through the environment. -/
structure Monitor where
  client : Nat
  config : Config
  lastResult : Snapshot
  hasBaseline : Bool
  snapshotPath : String
  deriving DecidableEq, Repr

/-- Go's `sort.Slice(xs, less)`: the result is a permutation of `xs` in which no
later element is `less` than an earlier one.  `sort.Slice` is not stable; the
model sorts by insertion. -/
def sortSlice {α : Type} (less : α → α → Bool) (xs : List α) : List α :=
  xs.insertionSort (fun a b => less b a = false)

/-- The `range` loop of diffAdded (monitor.go, lines 157-161). -/
def diffAdded.collect (lastResult : Snapshot) (current : Snapshot) : List CourseInfo :=
  current.foldl
    (fun added entry =>
      if (GoMap.get? lastResult entry.1).isNone then added ++ [entry.2] else added)
    []

/-- Monitor.diffAdded (monitor.go, lines 155-167). -/
def Monitor.diffAdded (m : Monitor) (current : Snapshot) : List CourseInfo :=
  sortSlice (fun a b : CourseInfo => stringLess a.UniqueKey b.UniqueKey)
    (diffAdded.collect m.lastResult current)

/-! ## The world outside the monitor -/

/-- The calls into the operating system made by the snapshot store. -/
inductive OsCall where
  /-- The call `os.MkdirAll(filepath.Dir(path), 0o755)`. -/
  | mkdirAllDirOf (path : String)
  | writeFile (path : String)
  | rename (oldpath newpath : String)
  | remove (path : String)
  | readFile (path : String)
  deriving DecidableEq, Repr

/-- What package monitor does to the outside world, in program order. -/
inductive Event where
  /-- A non-blocking `select` on `ctx.Done()` and what it saw. -/
  | ctxCheck (done : Bool)
  /-- A blocking `select` on `ctx.Done()` and a timer of duration `d`;
  `fired` tells whether the timer won. -/
  | wait (d : Int) (fired : Bool)
  /-- The call `jwxt.SearchAllModules(ctx, m.client, keyword)` returned. -/
  | search (keyword : String) (result : Except GoError (List CourseInfo))
  /-- Entry into reloginWithRetry. -/
  | relogin
  | login (err : Option GoError)
  | getRound (result : Except GoError String)
  | enterRound (roundID : String) (err : Option GoError)
  /-- The assignment `m.client = m.casClient.GetClient()`. -/
  | publishClient (client : Nat)
  | broadcast (message : String) (err : Option GoError)
  /-- Entry into saveSnapshot with `data`. -/
  | saveSnapshot (data : Snapshot)
  deriving DecidableEq

/-- The external collaborators.  `X` is the state of everything outside the
process (portal, chat transport, clock, signals, disk faults); every call may
read and change it, so successive calls may answer differently. -/
structure Env (X : Type) where
  /-- Whether `ctx.Done()` is ready at this moment. -/
  ctxDone : X → Bool × X
  /-- Block until the timer of the given duration fires (`true`) or the context
  is done (`false`). -/
  timer : Int → X → Bool × X
  /-- The call `jwxt.SearchModule(ctx, client, moduleType, courseKeyword)`. -/
  SearchModule : Nat → String → String → X → Except GoError (List CourseInfo) × X
  /-- The call `casClient.Login(ctx, username, password)`. -/
  Login : String → String → X → Option GoError × X
  /-- The call `casClient.GetClient()`. -/
  GetClient : X → Nat
  /-- The call `jwxt.GetSelectionRoundID(ctx, client)`. -/
  GetSelectionRoundID : Nat → X → Except GoError String × X
  /-- The call `jwxt.EnterSelectionRound(ctx, client, roundID)`. -/
  EnterSelectionRound : Nat → String → X → Option GoError × X
  /-- The call `notifier.BroadcastMessage(message)`. -/
  BroadcastMessage : String → X → Option GoError × X
  /-- Whether a call into the operating system fails for a reason outside the
  modelled file system (permissions, locks, a full disk). -/
  osFault : OsCall → X → Option GoError × X
  /-- The text layer of `json.MarshalIndent(v, "", "  ")`. -/
  jsonEncode : JDoc → Except GoError Bytes
  /-- The text layer of `json.Unmarshal`. -/
  jsonDecode : Bytes → Except GoError JDoc

/-- The world: the outside state, the files on disk, and the record of what the
monitor did so far. -/
structure World (X : Type) where
  ext : X
  files : GoMap Bytes
  trace : List Event

namespace World

variable {X : Type}

/-- Append an event to the record. -/
def emit (w : World X) (e : Event) : World X := { w with trace := w.trace ++ [e] }

end World

namespace GoMap

variable {V : Type}

/-- Go's `delete(m, k)`. -/
def erase : GoMap V → String → GoMap V
  | [], _ => []
  | (k', v) :: rest, k => if k' = k then rest else (k', v) :: erase rest k

end GoMap

section Calls

variable {X : Type}

/-- The non-blocking `select` on `ctx.Done()` with a `default` case. -/
def ctxDone (env : Env X) (w : World X) : Bool × World X :=
  let r := env.ctxDone w.ext
  (r.1, ({ w with ext := r.2 }).emit (.ctxCheck r.1))

/-- A `select` between `ctx.Done()` and a timer of duration `d`. -/
def timerWait (env : Env X) (d : Int) (w : World X) : Bool × World X :=
  let r := env.timer d w.ext
  (r.1, ({ w with ext := r.2 }).emit (.wait d r.1))

/-- The call `casClient.Login`. -/
def casLogin (env : Env X) (username password : String) (w : World X) :
    Option GoError × World X :=
  let r := env.Login username password w.ext
  (r.1, ({ w with ext := r.2 }).emit (.login r.1))

/-- The call `jwxt.GetSelectionRoundID`. -/
def GetSelectionRoundID (env : Env X) (client : Nat) (w : World X) :
    Except GoError String × World X :=
  let r := env.GetSelectionRoundID client w.ext
  (r.1, ({ w with ext := r.2 }).emit (.getRound r.1))

/-- The call `jwxt.EnterSelectionRound`. -/
def EnterSelectionRound (env : Env X) (client : Nat) (roundID : String) (w : World X) :
    Option GoError × World X :=
  let r := env.EnterSelectionRound client roundID w.ext
  (r.1, ({ w with ext := r.2 }).emit (.enterRound roundID r.1))

/-- The call `notifier.BroadcastMessage`. -/
def BroadcastMessage (env : Env X) (message : String) (w : World X) :
    Option GoError × World X :=
  let r := env.BroadcastMessage message w.ext
  (r.1, ({ w with ext := r.2 }).emit (.broadcast message r.1))

/-- Ask the environment whether an operating system call fails. -/
def osFault (env : Env X) (call : OsCall) (w : World X) : Option GoError × World X :=
  let r := env.osFault call w.ext
  (r.1, { w with ext := r.2 })

/-- The call `os.MkdirAll(filepath.Dir(path), 0o755)`; directories are not part
of the modelled file system. -/
def osMkdirAllDirOf (env : Env X) (path : String) (w : World X) : Option GoError × World X :=
  osFault env (.mkdirAllDirOf path) w

/-- The call `os.WriteFile(path, content, 0o644)`.  A failed call is taken to
leave the files as they were. -/
def osWriteFile (env : Env X) (path : String) (content : Bytes) (w : World X) :
    Option GoError × World X :=
  match osFault env (.writeFile path) w with
  | (some err, w) => (some err, w)
  | (none, w) => (none, { w with files := w.files.set path content })

/-- The call `os.Rename(oldpath, newpath)`: on success the content moves. -/
def osRename (env : Env X) (oldpath newpath : String) (w : World X) :
    Option GoError × World X :=
  match osFault env (.rename oldpath newpath) w with
  | (some err, w) => (some err, w)
  | (none, w) =>
    match w.files.get? oldpath with
    | none => (some (.wrap ("rename " ++ oldpath) .ErrNotExist), w)
    | some content => (none, { w with files := (w.files.erase oldpath).set newpath content })

/-- The call `os.Remove(path)`. -/
def osRemove (env : Env X) (path : String) (w : World X) : Option GoError × World X :=
  match osFault env (.remove path) w with
  | (some err, w) => (some err, w)
  | (none, w) =>
    match w.files.get? path with
    | none => (some (.wrap ("remove " ++ path) .ErrNotExist), w)
    | some _ => (none, { w with files := w.files.erase path })

/-- The call `os.ReadFile(path)`. -/
def osReadFile (env : Env X) (path : String) (w : World X) : Except GoError Bytes × World X :=
  match osFault env (.readFile path) w with
  | (some err, w) => (.error err, w)
  | (none, w) =>
    match w.files.get? path with
    | none => (.error (.wrap ("open " ++ path) .ErrNotExist), w)
    | some content => (.ok content, w)

end Calls

/-! ## Package jwxt: searching all modules -/

section Search

variable {X : Type}

/-- The loop over `ModuleTypes` in SearchAllModules (search.go, lines 129-144). -/
def jwxt.SearchAllModules.loop (env : Env X) (client : Nat) (courseKeyword : String) :
    List String → GoMap CourseInfo → World X → Except GoError (GoMap CourseInfo) × World X
  | [], uniq, w => (.ok uniq, w)
  | moduleType :: rest, uniq, w =>
    match env.SearchModule client moduleType courseKeyword w.ext with
    | (.error err, x) => (.error err, { w with ext := x })
    | (.ok courses, x) =>
      let uniq := courses.foldl (fun uniq course => uniq.set course.UniqueKey course) uniq
      match env.timer (100 * Millisecond) x with
      | (false, x) => (.error ctxErr, { w with ext := x })
      | (true, x) =>
        jwxt.SearchAllModules.loop env client courseKeyword rest uniq { w with ext := x }

/-- SearchAllModules (search.go, lines 127-151). -/
def jwxt.SearchAllModules (env : Env X) (client : Nat) (courseKeyword : String) (w : World X) :
    Except GoError (List CourseInfo) × World X :=
  match jwxt.SearchAllModules.loop env client courseKeyword ModuleTypes [] w with
  | (.error err, w) => (.error err, w)
  | (.ok uniq, w) => (.ok (uniq.map Prod.snd), w)

end Search

/-! ## Package notify: the message text -/

namespace notify

/-- The function nonEmpty (onebot.go, lines 127-133). -/
def nonEmpty (value fallback : String) : String :=
  let value := TrimSpace value
  if value = "" then fallback else value

/-- The text written for one record (onebot.go, lines 112-120). -/
def courseBlock (course : CourseInfo) : String :=
  "━━━━━━━━━━━━━━━━\n" ++
  "课程名称：" ++ nonEmpty course.Kcmc "未知" ++ "\n" ++
  "课程号：" ++ nonEmpty course.Kch "未知" ++ "\n" ++
  "授课教师：" ++ nonEmpty course.Skls "未知" ++ "\n" ++
  "上课时间：" ++ nonEmpty course.Sksj "未知" ++ "\n" ++
  "上课地点：" ++ nonEmpty course.Skdd "未知" ++ "\n" ++
  "剩余人数：" ++ nonEmpty course.Syrs "未知" ++ "\n" ++
  "已选/排课：" ++ toString course.Xkrs.val ++ "/" ++ toString course.Pkrs.val ++ "\n" ++
  "开课单位：" ++ nonEmpty course.Dwmc "未知" ++ "\n"

/-- The loop of FormatCoursesMessage (onebot.go, lines 108-121); `i` is the
index of the first record of `courses`. -/
def FormatCoursesMessage.loop : Nat → List CourseInfo → String → String
  | _, [], b => b
  | i, course :: rest, b =>
    let b := if i > 0 then b ++ "\n" else b
    FormatCoursesMessage.loop (i + 1) rest (b ++ courseBlock course)

/-- FormatCoursesMessage (onebot.go, lines 101-125). -/
def FormatCoursesMessage (courses : List CourseInfo) : String :=
  if courses.length = 0 then
    "【选课监控】本轮没有新增课程。"
  else
    FormatCoursesMessage.loop 0 courses "【选课监控】发现新课程！\n" ++ "━━━━━━━━━━━━━━━━"

end notify

/-! ## Package monitor: the snapshot store -/

/-- The constant defaultSnapshotPath (monitor.go, line 22). -/
def defaultSnapshotPath : String := "data/last_result.json"

/-- The object layer of `json.MarshalIndent` on a snapshot: one member per key,
keys in ascending order. -/
def Snapshot.toJSON (data : Snapshot) : JDoc :=
  .obj ((sortSlice (fun a b : String × CourseInfo => stringLess a.1 b.1) data).map
    (fun entry => (entry.1, entry.2.toJSON)))

/-- Decode the members of an object into a map, in order; a later member with
the same key replaces an earlier one. -/
def Snapshot.decodeEntries : List (String × JEntry) → Snapshot → Except GoError Snapshot
  | [], snapshot => .ok snapshot
  | (key, v) :: rest, snapshot =>
    match CourseInfo.fromJSON v with
    | .error err => .error err
    | .ok course => Snapshot.decodeEntries rest (snapshot.set key course)

/-- The object layer of `json.Unmarshal` into a nil `map[string]CourseInfo`;
`none` is the nil map that `null` leaves behind. -/
def Snapshot.fromJSON : JDoc → Except GoError (Option Snapshot)
  | .null => .ok none
  | .obj entries =>
    match Snapshot.decodeEntries entries [] with
    | .error err => .error err
    | .ok snapshot => .ok (some snapshot)
  | .other => .error (.other "json: cannot unmarshal value into map[string]CourseInfo")

section Store

variable {X : Type}

/-- The call `json.MarshalIndent(data, "", "  ")`. -/
def jsonMarshalIndent (env : Env X) (data : Snapshot) : Except GoError Bytes :=
  env.jsonEncode (Snapshot.toJSON data)

/-- The call `json.Unmarshal(content, &snapshot)`. -/
def jsonUnmarshal (env : Env X) (content : Bytes) : Except GoError (Option Snapshot) :=
  match env.jsonDecode content with
  | .error err => .error err
  | .ok doc => Snapshot.fromJSON doc

/-- Monitor.saveSnapshot (monitor.go, lines 211-236). -/
def Monitor.saveSnapshot (env : Env X) (m : Monitor) (data : Snapshot) (w : World X) :
    Option GoError × World X :=
  let w := w.emit (.saveSnapshot data)
  match osMkdirAllDirOf env m.snapshotPath w with
  | (some err, w) => (some (.wrap "创建快照目录失败: " err), w)
  | (none, w) =>
    match jsonMarshalIndent env data with
    | .error err => (some (.wrap "序列化快照失败: " err), w)
    | .ok content =>
      let tmpPath := m.snapshotPath ++ ".tmp"
      match osWriteFile env tmpPath content w with
      | (some err, w) => (some (.wrap "写入临时快照失败: " err), w)
      | (none, w) =>
        match osRename env tmpPath m.snapshotPath w with
        | (none, w) => (none, w)
        | (some _, w) =>
          let w := (osRemove env m.snapshotPath w).2
          match osRename env tmpPath m.snapshotPath w with
          | (some err2, w) =>
            let w := (osRemove env tmpPath w).2
            (some (.wrap "替换快照文件失败: " err2), w)
          | (none, w) => (none, w)

/-- Monitor.loadSnapshot (monitor.go, lines 238-255). -/
def Monitor.loadSnapshot (env : Env X) (m : Monitor) (w : World X) :
    Except GoError Snapshot × World X :=
  match osReadFile env m.snapshotPath w with
  | (.error err, w) => (.error err, w)
  | (.ok content, w) =>
    if content.length = 0 then
      (.ok [], w)
    else
      match jsonUnmarshal env content with
      | .error err => (.error (.wrap "解析快照失败: " err), w)
      | .ok none => (.ok [], w)
      | .ok (some snapshot) => (.ok snapshot, w)

/-- New (monitor.go, lines 37-67), for arguments that are not nil. -/
def New (env : Env X) (cfg : Config) (w : World X) : Monitor × World X :=
  let m : Monitor :=
    { client := env.GetClient w.ext, config := cfg, lastResult := [],
      hasBaseline := false, snapshotPath := defaultSnapshotPath }
  match m.loadSnapshot env w with
  | (.ok snapshot, w) => ({ m with lastResult := snapshot, hasBaseline := true }, w)
  | (.error _, w) => (m, w)

end Store

/-! ## Package monitor: query, recovery and the poll cycle -/

section Cycle

variable {X : Type}

/-- The inner loop of queryCurrentCourses (monitor.go, lines 144-150). -/
def queryCurrentCourses.merge (current : Snapshot) (courses : List CourseInfo) : Snapshot :=
  courses.foldl
    (fun current course =>
      let key := course.UniqueKey
      if key = "_" then current else current.set key course)
    current

/-- The loop over the keywords in queryCurrentCourses (monitor.go, lines 133-151). -/
def queryCurrentCourses.loop (env : Env X) (m : Monitor) :
    List String → Snapshot → World X → Except GoError Snapshot × World X
  | [], current, w => (.ok current, w)
  | keyword :: rest, current, w =>
    match ctxDone env w with
    | (true, w) => (.error ctxErr, w)
    | (false, w) =>
      match jwxt.SearchAllModules env m.client keyword w with
      | (.error err, w) =>
        (.error (.wrap ("课程[" ++ keyword ++ "]搜索失败: ") err),
          w.emit (.search keyword (.error err)))
      | (.ok courses, w) =>
        queryCurrentCourses.loop env m rest (queryCurrentCourses.merge current courses)
          (w.emit (.search keyword (.ok courses)))

/-- Monitor.queryCurrentCourses (monitor.go, lines 131-153). -/
def Monitor.queryCurrentCourses (env : Env X) (m : Monitor) (w : World X) :
    Except GoError Snapshot × World X :=
  queryCurrentCourses.loop env m m.config.CourseList [] w

/-- The doubling of `backoff` at the end of an attempt (monitor.go, lines 202-207). -/
def nextBackoff (backoff : Int) : Int :=
  if backoff < Minute then
    let backoff := backoff * 2
    if backoff > Minute then Minute else backoff
  else
    backoff

/-- The three steps of one attempt (monitor.go, lines 178-192): `true` when the
`return nil` of line 190 is reached. -/
def reloginWithRetry.attempt (env : Env X) (m : Monitor) (w : World X) :
    Bool × Monitor × World X :=
  match casLogin env m.config.Username m.config.Password w with
  | (some _, w) => (false, m, w)
  | (none, w) =>
    match GetSelectionRoundID env (env.GetClient w.ext) w with
    | (.error _, w) => (false, m, w)
    | (.ok roundID, w) =>
      match EnterSelectionRound env (env.GetClient w.ext) roundID w with
      | (some _, w) => (false, m, w)
      | (none, w) =>
        (true, { m with client := env.GetClient w.ext },
          w.emit (.publishClient (env.GetClient w.ext)))

/-- The loop of reloginWithRetry (monitor.go, lines 171-208).  The loop has no
bound, so the model counts attempts down from `fuel`; the first component is
`none` when the loop is still running after `fuel` attempts, and `some err`
when the function returned `err`. -/
def reloginWithRetry.loop (env : Env X) :
    Nat → Int → Monitor → World X → Option (Option GoError) × Monitor × World X
  | 0, _, m, w => (none, m, w)
  | fuel + 1, backoff, m, w =>
    match ctxDone env w with
    | (true, w) => (some (some ctxErr), m, w)
    | (false, w) =>
      match reloginWithRetry.attempt env m w with
      | (true, m, w) => (some none, m, w)
      | (false, m, w) =>
        match timerWait env backoff w with
        | (false, w) => (some (some ctxErr), m, w)
        | (true, w) => reloginWithRetry.loop env fuel (nextBackoff backoff) m w

/-- Monitor.reloginWithRetry (monitor.go, lines 169-209). -/
def Monitor.reloginWithRetry (env : Env X) (fuel : Nat) (m : Monitor) (w : World X) :
    Option (Option GoError) × Monitor × World X :=
  reloginWithRetry.loop env fuel (2 * Second) m (w.emit .relogin)

/-- Monitor.runRound (monitor.go, lines 88-129).  The first component tells
whether the cycle returned: it is `false` only when session recovery is still
running after `fuel` attempts. -/
def Monitor.runRound (env : Env X) (fuel : Nat) (m : Monitor) (w : World X) :
    Bool × Monitor × World X :=
  match m.queryCurrentCourses env w with
  | (.error err, w) =>
    if IsSessionExpired err then
      match m.reloginWithRetry env fuel w with
      | (r, m, w) => (r.isSome, m, w)
    else
      (true, m, w)
  | (.ok current, w) =>
    let added := m.diffAdded current
    if !m.hasBaseline then
      let m := { m with lastResult := current, hasBaseline := true }
      let w := (m.saveSnapshot env current w).2
      (true, m, w)
    else
      let w := if added.length > 0 then
          (BroadcastMessage env (notify.FormatCoursesMessage added) w).2
        else w
      let m := { m with lastResult := current }
      let w := (m.saveSnapshot env current w).2
      (true, m, w)

end Cycle

/-! ## Reading the record of events -/

/-- The text of a broadcast event. -/
def Event.broadcastText : Event → Option String
  | .broadcast message _ => some message
  | _ => none

/-- The data of a saveSnapshot event. -/
def Event.savedData : Event → Option Snapshot
  | .saveSnapshot data => some data
  | _ => none

/-- The keyword of a search event. -/
def Event.searchKeyword : Event → Option String
  | .search keyword _ => some keyword
  | _ => none

/-- The duration of a wait event. -/
def Event.waitDuration : Event → Option Int
  | .wait d _ => some d
  | _ => none

/-- Whether the event is the entry into reloginWithRetry. -/
def Event.isRelogin : Event → Bool
  | .relogin => true
  | _ => false

/-- Whether the event is a search that returned an error. -/
def Event.isFailedSearch : Event → Bool
  | .search _ (.error _) => true
  | _ => false

/-- Whether the event is a step of a recovery attempt that failed. -/
def Event.isFailedStep : Event → Bool
  | .login (some _) => true
  | .getRound (.error _) => true
  | .enterRound _ (some _) => true
  | _ => false

/-- Whether the event is a wait. -/
def Event.isWait : Event → Bool
  | .wait _ _ => true
  | _ => false

/-- The events a query can produce: context checks and searches. -/
def Event.isQueryEvent : Event → Bool
  | .ctxCheck _ => true
  | .search _ _ => true
  | _ => false

/-- The events session recovery can produce. -/
def Event.isRecoveryEvent : Event → Bool
  | .ctxCheck _ => true
  | .wait _ _ => true
  | .relogin => true
  | .login _ => true
  | .getRound _ => true
  | .enterRound _ _ => true
  | .publishClient _ => true
  | _ => false

/-- The records returned by the successful searches in a stretch of events, in
order. -/
def scrapedOf : List Event → List CourseInfo
  | [] => []
  | .search _ (.ok courses) :: rest => courses ++ scrapedOf rest
  | _ :: rest => scrapedOf rest

/-- The texts broadcast in a stretch of events, in order. -/
def broadcastsOf (t : List Event) : List String := t.filterMap Event.broadcastText

/-- The snapshots handed to saveSnapshot in a stretch of events, in order. -/
def savesOf (t : List Event) : List Snapshot := t.filterMap Event.savedData

/-- The keywords searched in a stretch of events, in order. -/
def searchesOf (t : List Event) : List String := t.filterMap Event.searchKeyword

/-- The durations waited in a stretch of events, in order. -/
def waitsOf (t : List Event) : List Int := t.filterMap Event.waitDuration

/-- The events recorded between world `w` and the later world `w'`. -/
def eventsSince {X : Type} (w w' : World X) : List Event := w'.trace.drop w.trace.length

/-! ## Statements about the diff engine and the merge -/

/-- Every key of the snapshot is the `UniqueKey()` of the record stored under it. -/
def KeyedByUniqueKey (s : Snapshot) : Prop := ∀ e ∈ s, e.2.UniqueKey = e.1

instance (s : Snapshot) : Decidable (KeyedByUniqueKey s) := by
  unfold KeyedByUniqueKey; infer_instance

/-- The contract of the diff engine for previous snapshot `P`, current snapshot
`C` and output `out`: there is a strictly ascending list of keys, holding
exactly the keys of `C` that `P` lacks, and `out` holds the records `C` maps
these keys to, in that order. -/
def DiffCorrect (P C : Snapshot) (out : List CourseInfo) : Prop :=
  ∃ ks : List String,
    ks.Sorted (· < ·) ∧
    (∀ k, k ∈ ks ↔ k ∈ GoMap.keys C ∧ k ∉ GoMap.keys P) ∧
    out.map some = ks.map (GoMap.get? C)

/-- Both identifiers of the record are blank after trimming. -/
def BothBlank (c : CourseInfo) : Prop := TrimSpace c.Jx02id = "" ∧ TrimSpace c.Jx0404id = ""

instance (c : CourseInfo) : Decidable (BothBlank c) := by unfold BothBlank; infer_instance

/-- The last record of `courses` whose `UniqueKey()` is `k`. -/
def lastWithKey : List CourseInfo → String → Option CourseInfo
  | [], _ => none
  | c :: rest, k =>
    match lastWithKey rest k with
    | some x => some x
    | none => if c.UniqueKey = k then some c else none

/-! ## What a query leaves in the record -/

/-- The events `d` of a run of the keyword loop over `kws` from the map
`current`, against its result `res`.  Every event is a context check or a
search.  A successful run searched every keyword, none failed, and the result
is the merge of what the searches returned.  A failed run either ends with the
one failed search, whose error the result wraps, or saw the context done. -/
def QuerySpec (kws : List String) (current : Snapshot) (res : Except GoError Snapshot)
    (d : List Event) : Prop :=
  (∀ e ∈ d, e.isQueryEvent = true) ∧
  match res with
  | .ok cur =>
    (∀ e ∈ d, e.isFailedSearch = false) ∧
    cur = queryCurrentCourses.merge current (scrapedOf d) ∧
    searchesOf d = kws
  | .error err =>
    (∃ d0 kw e0 rest, d = d0 ++ [.search kw (.error e0)] ∧
      (∀ e ∈ d0, e.isFailedSearch = false) ∧
      err = .wrap ("课程[" ++ kw ++ "]搜索失败: ") e0 ∧
      kws = searchesOf d0 ++ kw :: rest) ∨
    (err = ctxErr ∧ ∀ e ∈ d, e.isFailedSearch = false)

/-! ## The protocol of session recovery -/

/-- The events of the three steps of an attempt in which one step fails: Login
fails; or Login succeeds and GetSelectionRoundID fails; or both succeed and
EnterSelectionRound fails. -/
inductive FailedSteps : List Event → Prop where
  | login (err : GoError) : FailedSteps [.login (some err)]
  | getRound (err : GoError) : FailedSteps [.login none, .getRound (.error err)]
  | enterRound (roundID : String) (err : GoError) :
    FailedSteps [.login none, .getRound (.ok roundID), .enterRound roundID (some err)]

/-- The protocol of session recovery as the specification words it, for a loop
entered with wait `backoff`: the events of the loop against its outcome
(`none`: still retrying; `some none`: returned success; `some (some err)`:
returned `err`), and the client published, if any. -/
inductive RecoveryRun : Int → List Event → Option (Option GoError) → Option Nat → Prop where
  /-- Still retrying: every attempt so far failed and every wait ran out. -/
  | running (backoff : Int) : RecoveryRun backoff [] none none
  /-- Cancellation seen at the top of an attempt. -/
  | cancelledAtTop (backoff : Int) :
    RecoveryRun backoff [.ctxCheck true] (some (some ctxErr)) none
  /-- The three steps succeed in order; the client is published; success. -/
  | succeeded (backoff : Int) (roundID : String) (client : Nat) :
    RecoveryRun backoff
      [.ctxCheck false, .login none, .getRound (.ok roundID), .enterRound roundID none,
        .publishClient client]
      (some none) (some client)
  /-- A step fails and cancellation arrives during the wait. -/
  | cancelledInWait (backoff : Int) (steps : List Event) (h : FailedSteps steps) :
    RecoveryRun backoff (.ctxCheck false :: steps ++ [.wait backoff false])
      (some (some ctxErr)) none
  /-- A step fails, the wait runs out, and the next attempt starts from the top
  with the next wait. -/
  | retried (backoff : Int) (steps rest : List Event) (out : Option (Option GoError))
    (client : Option Nat) (h : FailedSteps steps)
    (hrest : RecoveryRun (nextBackoff backoff) rest out client) :
    RecoveryRun backoff (.ctxCheck false :: steps ++ .wait backoff true :: rest) out client

/-- Every failed step in the list is immediately followed by a wait. -/
def failuresThenWait : List Event → Bool
  | [] => true
  | [e] => !e.isFailedStep
  | e :: e' :: rest => (!e.isFailedStep || e'.isWait) && failuresThenWait (e' :: rest)

/-- The list is empty, or is a context check that saw cancellation, or starts
with a context check that saw none followed by a login. -/
def startsAttempt : List Event → Bool
  | [] => true
  | [.ctxCheck true] => true
  | .ctxCheck false :: .login _ :: _ => true
  | _ => false

/-- After every wait that ran out, the rest of the list starts an attempt. -/
def retriesFromTop : List Event → Bool
  | [] => true
  | .wait _ true :: rest => startsAttempt rest && retriesFromTop rest
  | _ :: rest => retriesFromTop rest

/-! ## Scenarios: a scripted environment

The outside state is a clock that every call advances.  The portal answers a
search by a fixed function of the keyword, logins fail while the clock is
below `loginFailsUntil`, and the context is done once the clock reaches
`cancelAt`. -/

/-- The scripted environment. -/
def scriptedEnv (search : String → Except GoError (List CourseInfo))
    (broadcastErr : Option GoError) (diskFault : Option GoError)
    (loginFailsUntil : Nat) (cancelAt : Nat) : Env Nat where
  ctxDone x := (decide (cancelAt ≤ x), x + 1)
  timer _ x := (decide (x < cancelAt), x + 1)
  SearchModule _ _ keyword x := (search keyword, x + 1)
  Login _ _ x := (if x < loginFailsUntil then some (.other "login failed") else none, x + 1)
  GetClient x := x
  GetSelectionRoundID _ x := (.ok "round-1", x + 1)
  EnterSelectionRound _ _ x := (none, x + 1)
  BroadcastMessage _ x := (broadcastErr, x + 1)
  osFault _ x := (diskFault, x + 1)
  jsonEncode _ := .ok [0x7b, 0x7d]
  jsonDecode _ := .ok (.obj [])

/-- The world at start: clock at zero, no files, nothing recorded. -/
def emptyWorld : World Nat := { ext := 0, files := [], trace := [] }

/-- The world at start with a snapshot file of the given content on disk. -/
def worldWithSnapshotFile (content : Bytes) : World Nat :=
  { ext := 0, files := [(defaultSnapshotPath, content)], trace := [] }

/-- The configuration of the scenarios: one keyword. -/
def oneKeyword : Config := ⟨"u", "p", ["k1"], 2⟩

/-- A configuration with three keywords. -/
def threeKeywords : Config := ⟨"u", "p", ["k1", "k2", "k3"], 2⟩

/-- A record with the given two identifiers and zero values elsewhere. -/
def recordOf (jx02id jx0404id : String) : CourseInfo :=
  { CourseInfo.zero with Jx02id := jx02id, Jx0404id := jx0404id }

/-- Record A of the scenarios. -/
def recA : CourseInfo :=
  { recordOf "A" "1" with Kcmc := "Algebra", Xkrs := ⟨3, by decide⟩, Pkrs := ⟨40, by decide⟩ }
/-- Record B of the scenarios. -/
def recB : CourseInfo := { recordOf "B" "1" with Kcmc := "Biology" }
/-- Record C of the scenarios. -/
def recC : CourseInfo := { recordOf "C" "1" with Kcmc := "Chemistry" }

/-- A record without identifiers, as the portal returns for a row that is not a
course section. -/
def recBlank : CourseInfo := { recordOf " " "\t" with Kcmc := "artifact" }

/-- A portal that answers every keyword with records A, B and C. -/
def portalABC (_ : String) : Except GoError (List CourseInfo) := .ok [recA, recB, recC]

/-- Record D of the scenarios: padded and blank text fields, a negative count. -/
def recD : CourseInfo :=
  { recordOf "D" "1" with
    Kcmc := " Data structures ", Kch := "D100", Skls := " \t", Syrs := "12",
    Xkrs := ⟨7, by decide⟩, Pkrs := ⟨-1, by decide⟩, Dwmc := "计算机学院" }

/-- A portal that answers every keyword with records A, B, D and C. -/
def portalABDC (_ : String) : Except GoError (List CourseInfo) := .ok [recA, recB, recD, recC]

/-- A portal that answers every keyword with records A and B. -/
def portalAB (_ : String) : Except GoError (List CourseInfo) := .ok [recA, recB]

/-- A portal that answers every keyword with A, a record without identifiers,
and B. -/
def portalWithBlank (_ : String) : Except GoError (List CourseInfo) :=
  .ok [recA, recBlank, recB]

/-- A portal whose session has expired when the second keyword is searched. -/
def portalExpiresOnK2 (keyword : String) : Except GoError (List CourseInfo) :=
  if keyword = "k2" then
    .error (.wrap ": 搜索接口返回登录页[xsxkKnjxk]" ErrSessionExpired)
  else
    .ok [recA]

/-- A portal that fails on the second keyword for a reason other than the
session. -/
def portalBreaksOnK2 (keyword : String) : Except GoError (List CourseInfo) :=
  if keyword = "k2" then .error (.other "搜索接口响应异常[xsxkKnjxk]: 500")
  else .ok [recA]

/-- The scripted environment with a text layer that knows one document: it
writes `doc` as a fixed byte string and reads that byte string back as `doc`. -/
def oneDocumentEnv (doc : JDoc) : Env Nat :=
  { scriptedEnv portalAB none none 0 100 with
    jsonEncode := fun d =>
      if d = doc then .ok [0x7b, 0x2e, 0x7d] else .error (.other "unknown document")
    jsonDecode := fun b =>
      if b = [0x7b, 0x2e, 0x7d] then .ok doc else .error (.other "invalid character") }

/-- A monitor holding the given snapshot, with the baseline flag as given. -/
def monitorWith (lastResult : Snapshot) (hasBaseline : Bool) : Monitor :=
  { client := 0, config := oneKeyword, lastResult := lastResult,
    hasBaseline := hasBaseline, snapshotPath := defaultSnapshotPath }

/-- A monitor over three keywords holding the given snapshot. -/
def monitorThree (lastResult : Snapshot) (hasBaseline : Bool) : Monitor :=
  { client := 0, config := threeKeywords, lastResult := lastResult,
    hasBaseline := hasBaseline, snapshotPath := defaultSnapshotPath }

/-- A current snapshot whose keys are not the `UniqueKey()` of its records. -/
def misKeyed : Snapshot := [("b", recordOf "a" ""), ("a", recordOf "z" "")]

/-- A snapshot with two records, B before A; all fields of B but three are zero
values. -/
def snapshotBA : Snapshot := [("B_1", recB), ("A_1", recA)]

/-! ## Statements about the merge across keywords -/

/-- The successful searches in a stretch of events, in order: each keyword with
the records returned for it. -/
def searchResultsOf : List Event → List (String × List CourseInfo)
  | [] => []
  | .search keyword (.ok courses) :: rest => (keyword, courses) :: searchResultsOf rest
  | _ :: rest => searchResultsOf rest

/-- Record A as a later search returns it: same identifiers, another number of
remaining seats. -/
def recALater : CourseInfo := { recA with Syrs := "5" }

/-- A portal that answers the first keyword with A and B, and every other
keyword with the later state of A and with C. -/
def portalOverlap (keyword : String) : Except GoError (List CourseInfo) :=
  if keyword = "k1" then .ok [recA, recB] else .ok [recALater, recC]

/-! # Theorems -/

/-! ## Order on strings -/

theorem lessChars_iff (a b : List Char) : lessChars a b = true ↔ a < b := by
  induction a generalizing b with
  | nil =>
    cases b with
    | nil => simp [lessChars]
    | cons c cs => simp [lessChars, List.nil_lt_cons]
  | cons x xs ih =>
    cases b with
    | nil => simp [lessChars]
    | cons c cs =>
      unfold lessChars
      by_cases h : x = c
      · subst h
        simp only [if_true]
        rw [ih]
        exact List.Lex.cons_iff.symm
      · simp only [h, if_false, decide_eq_true_eq]
        constructor
        · intro hlt
          exact List.Lex.rel hlt
        · intro hl
          cases hl with
          | cons h' => exact absurd rfl h
          | rel h' => exact h'

theorem stringLess_iff (a b : String) : stringLess a b = true ↔ a < b := by
  rw [String.lt_iff_toList_lt]; exact lessChars_iff a.data b.data

theorem stringLess_eq_false_iff (a b : String) : stringLess b a = false ↔ a ≤ b := by
  rw [← not_lt, ← stringLess_iff]; simp

/-! ## Go maps -/

namespace GoMap

variable {V : Type}

theorem get?_eq_none_iff (m : GoMap V) (k : String) : m.get? k = none ↔ k ∉ m.keys := by
  induction m with
  | nil => simp [get?, keys]
  | cons e rest ih =>
    obtain ⟨k', v⟩ := e
    by_cases h : k' = k
    · simp [get?, keys, h]
    · have h' : ¬ k = k' := fun h2 => h h2.symm
      simpa [get?, keys, h, h'] using ih

theorem mem_of_get? (m : GoMap V) (k : String) (v : V) (h : m.get? k = some v) :
    (k, v) ∈ m := by
  induction m with
  | nil => simp [get?] at h
  | cons e rest ih =>
    obtain ⟨k', v'⟩ := e
    by_cases hk : k' = k
    · simp [get?, hk] at h
      simp [hk, h]
    · simp [get?, hk] at h
      exact List.mem_cons_of_mem _ (ih h)

theorem get?_of_mem (m : GoMap V) (hm : m.WF) (k : String) (v : V) (h : (k, v) ∈ m) :
    m.get? k = some v := by
  induction m with
  | nil => simp at h
  | cons e rest ih =>
    obtain ⟨k', v'⟩ := e
    have hnd : k' ∉ keys rest ∧ (keys rest).Nodup := by
      simpa [WF, keys] using hm
    rcases List.mem_cons.mp h with heq | hin
    · cases heq
      simp [get?]
    · have hne : k' ≠ k := by
        intro hk
        apply hnd.1
        rw [hk]
        exact List.mem_map.mpr ⟨(k, v), hin, rfl⟩
      simp [get?, hne]
      exact ih hnd.2 hin

theorem mem_keys_of_mem (m : GoMap V) (k : String) (v : V) (h : (k, v) ∈ m) : k ∈ m.keys :=
  List.mem_map.mpr ⟨(k, v), h, rfl⟩

end GoMap

/-! ## The diff engine -/

theorem collect_foldl (P : Snapshot) (C : Snapshot) (acc : List CourseInfo) :
    C.foldl (fun added entry =>
        if (GoMap.get? P entry.1).isNone then added ++ [entry.2] else added) acc
      = acc ++ (C.filter (fun e => (GoMap.get? P e.1).isNone)).map Prod.snd := by
  induction C generalizing acc with
  | nil => simp
  | cons e rest ih =>
    by_cases h : (GoMap.get? P e.1).isNone = true
    · rw [List.foldl_cons, if_pos h, ih]
      simp [List.filter_cons, h]
    · rw [List.foldl_cons, if_neg h, ih]
      simp [List.filter_cons, h]

theorem collect_eq (P C : Snapshot) :
    diffAdded.collect P C = (C.filter (fun e => (GoMap.get? P e.1).isNone)).map Prod.snd := by
  unfold diffAdded.collect
  rw [collect_foldl]; simp

theorem sortSlice_total {α : Type} (f : α → String) :
    IsTotal α (fun a b => stringLess (f b) (f a) = false) :=
  ⟨fun a b => by
    simp only [stringLess_eq_false_iff]
    exact le_total (f a) (f b)⟩

theorem sortSlice_trans {α : Type} (f : α → String) :
    IsTrans α (fun a b => stringLess (f b) (f a) = false) :=
  ⟨fun a b c => by
    simp only [stringLess_eq_false_iff]
    exact le_trans⟩

theorem sortSlice_perm {α : Type} (f : α → String) (xs : List α) :
    (sortSlice (fun a b => stringLess (f a) (f b)) xs).Perm xs :=
  List.perm_insertionSort _ xs

theorem sortSlice_sorted {α : Type} (f : α → String) (xs : List α) :
    ((sortSlice (fun a b => stringLess (f a) (f b)) xs).map f).Sorted (· ≤ ·) := by
  haveI := sortSlice_total f
  haveI := sortSlice_trans f
  have h := List.sorted_insertionSort (fun a b => stringLess (f b) (f a) = false) xs
  unfold sortSlice
  rw [List.Sorted, List.pairwise_map]
  refine List.Pairwise.imp ?_ h
  intro a b hab
  exact (stringLess_eq_false_iff _ _).mp hab

theorem diffAdded_perm (m : Monitor) (C : Snapshot) :
    (m.diffAdded C).Perm
      ((C.filter (fun e => (GoMap.get? m.lastResult e.1).isNone)).map Prod.snd) := by
  unfold Monitor.diffAdded
  rw [collect_eq]
  exact sortSlice_perm _ _

theorem mem_diffAdded (m : Monitor) (C : Snapshot) (r : CourseInfo) :
    r ∈ m.diffAdded C ↔ ∃ k, (k, r) ∈ C ∧ k ∉ GoMap.keys m.lastResult := by
  rw [(diffAdded_perm m C).mem_iff]
  simp only [List.mem_map, List.mem_filter, Option.isNone_iff_eq_none, GoMap.get?_eq_none_iff]
  constructor
  · rintro ⟨⟨k, r'⟩, ⟨hin, hk⟩, rfl⟩
    exact ⟨k, hin, hk⟩
  · rintro ⟨k, hin, hk⟩
    exact ⟨(k, r), ⟨hin, hk⟩, rfl⟩

theorem diffAdded_keys_eq (m : Monitor) (C : Snapshot) (hkey : KeyedByUniqueKey C) :
    ((m.diffAdded C).map CourseInfo.UniqueKey).Perm
      ((C.filter (fun e => (GoMap.get? m.lastResult e.1).isNone)).map Prod.fst) := by
  have h := (diffAdded_perm m C).map CourseInfo.UniqueKey
  rw [List.map_map] at h
  have heq : List.map (CourseInfo.UniqueKey ∘ Prod.snd)
        (C.filter (fun e => (GoMap.get? m.lastResult e.1).isNone))
      = (C.filter (fun e => (GoMap.get? m.lastResult e.1).isNone)).map Prod.fst := by
    apply List.map_congr_left
    intro e he
    exact hkey e (List.mem_of_mem_filter he)
  rw [heq] at h
  exact h

theorem diffAdded_keys_nodup (m : Monitor) (C : Snapshot) (hwf : GoMap.WF C)
    (hkey : KeyedByUniqueKey C) : ((m.diffAdded C).map CourseInfo.UniqueKey).Nodup := by
  rw [(diffAdded_keys_eq m C hkey).nodup_iff]
  exact List.Nodup.sublist (List.Sublist.map _ (List.filter_sublist _)) hwf

theorem diffAdded_sorted_le (m : Monitor) (C : Snapshot) :
    ((m.diffAdded C).map CourseInfo.UniqueKey).Sorted (· ≤ ·) :=
  sortSlice_sorted CourseInfo.UniqueKey _

theorem collect_perm (P C C' : Snapshot) (h : C'.Perm C) :
    (diffAdded.collect P C').Perm (diffAdded.collect P C) := by
  rw [collect_eq, collect_eq]
  exact (h.filter _).map _

theorem sorted_perm_unique (out ref : List CourseInfo) (hperm : out.Perm ref)
    (hout : (out.map CourseInfo.UniqueKey).Sorted (· ≤ ·))
    (href : (ref.map CourseInfo.UniqueKey).Sorted (· ≤ ·))
    (hnodup : (ref.map CourseInfo.UniqueKey).Nodup) : out = ref := by
  have hnodup' : (out.map CourseInfo.UniqueKey).Nodup :=
    ((hperm.map CourseInfo.UniqueKey).nodup_iff).mpr hnodup
  have h1 := hout.lt_of_le hnodup'
  have h2 := href.lt_of_le hnodup
  rw [List.Sorted, List.pairwise_map] at h1 h2
  haveI : IsAntisymm CourseInfo (fun a b => a.UniqueKey < b.UniqueKey) :=
    ⟨fun a b hab hba => absurd hab (not_lt_of_gt hba)⟩
  exact List.eq_of_perm_of_sorted hperm h1 h2

theorem diffAdded_order_independent (m : Monitor) (C C' : Snapshot) (hwf : GoMap.WF C)
    (hkey : KeyedByUniqueKey C) (hperm : C'.Perm C) (out : List CourseInfo)
    (hout : out.Perm (diffAdded.collect m.lastResult C'))
    (hs : (out.map CourseInfo.UniqueKey).Sorted (· ≤ ·)) : out = m.diffAdded C := by
  apply sorted_perm_unique out _ _ hs (diffAdded_sorted_le m C)
    (diffAdded_keys_nodup m C hwf hkey)
  refine (hout.trans (collect_perm m.lastResult C C' hperm)).trans ?_
  rw [collect_eq]
  exact (diffAdded_perm m C).symm

theorem diffAdded_entries (m : Monitor) (C : Snapshot) :
    m.diffAdded C
      = (sortSlice (fun a b : String × CourseInfo => stringLess a.2.UniqueKey b.2.UniqueKey)
          (C.filter (fun e => (GoMap.get? m.lastResult e.1).isNone))).map Prod.snd := by
  unfold Monitor.diffAdded sortSlice
  rw [collect_eq]
  symm
  apply List.map_insertionSort
  intro a _ b _
  exact Iff.rfl

theorem diffAdded_content (m : Monitor) (C : Snapshot) (hwf : GoMap.WF C) :
    ∃ ks : List String, ks.Nodup ∧
      (∀ k, k ∈ ks ↔ k ∈ GoMap.keys C ∧ k ∉ GoMap.keys m.lastResult) ∧
      (m.diffAdded C).map some = ks.map (GoMap.get? C) := by
  have hperm : (sortSlice
      (fun a b : String × CourseInfo => stringLess a.2.UniqueKey b.2.UniqueKey)
      (C.filter (fun e => (GoMap.get? m.lastResult e.1).isNone))).Perm
      (C.filter (fun e => (GoMap.get? m.lastResult e.1).isNone)) := sortSlice_perm _ _
  refine ⟨(sortSlice (fun a b : String × CourseInfo => stringLess a.2.UniqueKey b.2.UniqueKey)
    (C.filter (fun e => (GoMap.get? m.lastResult e.1).isNone))).map Prod.fst, ?_, ?_, ?_⟩
  · rw [(hperm.map Prod.fst).nodup_iff]
    exact List.Nodup.sublist (List.Sublist.map _ (List.filter_sublist _)) hwf
  · intro k
    rw [(hperm.map Prod.fst).mem_iff]
    simp only [GoMap.keys, List.mem_map, List.mem_filter, Option.isNone_iff_eq_none,
      GoMap.get?_eq_none_iff]
    constructor
    · rintro ⟨e, ⟨he, hk⟩, rfl⟩
      exact ⟨⟨e, he, rfl⟩, hk⟩
    · rintro ⟨⟨e, he, rfl⟩, hk⟩
      exact ⟨e, ⟨he, hk⟩, rfl⟩
  · rw [diffAdded_entries, List.map_map, List.map_map]
    apply List.map_congr_left
    intro e he
    have hin : e ∈ C := List.mem_of_mem_filter ((hperm.mem_iff).mp he)
    simp only [Function.comp]
    exact (GoMap.get?_of_mem C hwf e.1 e.2 hin).symm

theorem diffAdded_keyed_correct (m : Monitor) (C : Snapshot) (hwf : GoMap.WF C)
    (hkey : KeyedByUniqueKey C) : DiffCorrect m.lastResult C (m.diffAdded C) := by
  refine ⟨(m.diffAdded C).map CourseInfo.UniqueKey, ?_, ?_, ?_⟩
  · exact (diffAdded_sorted_le m C).lt_of_le (diffAdded_keys_nodup m C hwf hkey)
  · intro k
    simp only [List.mem_map, mem_diffAdded]
    constructor
    · rintro ⟨r, ⟨k', hin, hk'⟩, rfl⟩
      have hk := hkey (k', r) hin
      simp only at hk
      rw [hk]
      exact ⟨GoMap.mem_keys_of_mem C k' r hin, hk'⟩
    · rintro ⟨hin, hk⟩
      obtain ⟨e, he, rfl⟩ := List.mem_map.mp hin
      exact ⟨e.2, ⟨e.1, he, hk⟩, hkey e he⟩
  · rw [List.map_map]
    apply List.map_congr_left
    intro r hr
    obtain ⟨k, hin, _⟩ := (mem_diffAdded m C r).mp hr
    have hk := hkey (k, r) hin
    simp only at hk
    simp only [Function.comp]
    rw [hk]
    exact (GoMap.get?_of_mem C hwf k r hin).symm

/-- The order diffAdded gives is that of the records' `UniqueKey()`: on a map
whose keys are not the `UniqueKey()` of its records, which no caller of
diffAdded builds, the records of keys "b" and "a" come out in that order. -/
theorem diffAdded_misKeyed_order :
    GoMap.WF misKeyed ∧
    (monitorWith [] true).diffAdded misKeyed = [recordOf "a" "", recordOf "z" ""] ∧
    GoMap.get? misKeyed "b" = some (recordOf "a" "") ∧
    GoMap.get? misKeyed "a" = some (recordOf "z" "") ∧
    ¬ DiffCorrect (monitorWith [] true).lastResult misKeyed
        ((monitorWith [] true).diffAdded misKeyed) := by
  have hout : (monitorWith [] true).diffAdded misKeyed
      = [recordOf "a" "", recordOf "z" ""] := by decide
  refine ⟨by decide, hout, by decide, by decide, ?_⟩
  rintro ⟨ks, hs, hmem, hmap⟩
  rw [hout] at hmap
  rcases ks with _ | ⟨k1, _ | ⟨k2, _ | ⟨k3, t⟩⟩⟩
  · simp at hmap
  · simp at hmap
  · have h1 : k1 = "b" ∨ k1 = "a" := by
      have := ((hmem k1).mp (by simp)).1
      simpa [misKeyed, GoMap.keys] using this
    have h2 : k2 = "b" ∨ k2 = "a" := by
      have := ((hmem k2).mp (by simp)).1
      simpa [misKeyed, GoMap.keys] using this
    have hlt : k1 < k2 := by
      simpa using hs
    rcases h1 with rfl | rfl <;> rcases h2 with rfl | rfl
    · exact lt_irrefl _ hlt
    · rw [← stringLess_iff] at hlt
      exact absurd hlt (by decide)
    · revert hmap; decide
    · exact lt_irrefl _ hlt
  · simp at hmap

/-! ## The record of events only grows -/

section Traces

variable {X : Type}

@[simp] theorem emit_trace (w : World X) (e : Event) : (w.emit e).trace = w.trace ++ [e] := rfl

@[simp] theorem emit_files (w : World X) (e : Event) : (w.emit e).files = w.files := rfl

@[simp] theorem emit_ext (w : World X) (e : Event) : (w.emit e).ext = w.ext := rfl

theorem eventsSince_of_append (w w' : World X) (d : List Event)
    (h : w'.trace = w.trace ++ d) : eventsSince w w' = d := by
  unfold eventsSince
  rw [h, List.drop_left]

@[simp] theorem ctxDone_trace (env : Env X) (w : World X) :
    (ctxDone env w).2.trace = w.trace ++ [.ctxCheck (ctxDone env w).1] := rfl

@[simp] theorem timerWait_trace (env : Env X) (d : Int) (w : World X) :
    (timerWait env d w).2.trace = w.trace ++ [.wait d (timerWait env d w).1] := rfl

@[simp] theorem BroadcastMessage_trace (env : Env X) (msg : String) (w : World X) :
    (BroadcastMessage env msg w).2.trace
      = w.trace ++ [.broadcast msg (BroadcastMessage env msg w).1] := rfl

@[simp] theorem osFault_trace (env : Env X) (c : OsCall) (w : World X) :
    (osFault env c w).2.trace = w.trace := rfl

@[simp] theorem osMkdirAllDirOf_trace (env : Env X) (path : String) (w : World X) :
    (osMkdirAllDirOf env path w).2.trace = w.trace := rfl

theorem osFault_trace_of (env : Env X) (c : OsCall) (w w' : World X) (r : Option GoError)
    (h : osFault env c w = (r, w')) : w'.trace = w.trace := by
  have ht := osFault_trace env c w
  rw [h] at ht
  exact ht

@[simp] theorem osWriteFile_trace (env : Env X) (path : String) (c : Bytes) (w : World X) :
    (osWriteFile env path c w).2.trace = w.trace := by
  unfold osWriteFile
  split <;> rename_i h <;> simp [osFault_trace_of env _ _ _ _ h]

@[simp] theorem osRename_trace (env : Env X) (a b : String) (w : World X) :
    (osRename env a b w).2.trace = w.trace := by
  unfold osRename
  split
  · rename_i h; simp [osFault_trace_of env _ _ _ _ h]
  · rename_i h
    split <;> simp [osFault_trace_of env _ _ _ _ h]

@[simp] theorem osRemove_trace (env : Env X) (a : String) (w : World X) :
    (osRemove env a w).2.trace = w.trace := by
  unfold osRemove
  split
  · rename_i h; simp [osFault_trace_of env _ _ _ _ h]
  · rename_i h
    split <;> simp [osFault_trace_of env _ _ _ _ h]

@[simp] theorem osReadFile_trace (env : Env X) (a : String) (w : World X) :
    (osReadFile env a w).2.trace = w.trace := by
  unfold osReadFile
  split
  · rename_i h; simp [osFault_trace_of env _ _ _ _ h]
  · rename_i h
    split <;> simp [osFault_trace_of env _ _ _ _ h]

theorem pair_trace_of {α : Type} (p : α × World X) (a : α) (w' : World X) (h : p = (a, w')) :
    w'.trace = p.2.trace := by
  rw [h]

theorem saveSnapshot_trace (env : Env X) (m : Monitor) (data : Snapshot) (w : World X) :
    (m.saveSnapshot env data w).2.trace = w.trace ++ [.saveSnapshot data] := by
  unfold Monitor.saveSnapshot
  simp only
  split
  · rename_i h
    simp [pair_trace_of _ _ _ h]
  · rename_i h1
    have h1 := pair_trace_of _ _ _ h1
    simp only [osMkdirAllDirOf_trace, emit_trace] at h1
    split
    · simp [h1]
    · split
      · rename_i h2
        simp [pair_trace_of _ _ _ h2, h1]
      · rename_i h2
        have h2 := pair_trace_of _ _ _ h2
        simp only [osWriteFile_trace, h1] at h2
        split
        · rename_i h3
          simp [pair_trace_of _ _ _ h3, h2]
        · rename_i h3
          have h3 := pair_trace_of _ _ _ h3
          simp only [osRename_trace, h2] at h3
          split
          · rename_i h4
            simp [pair_trace_of _ _ _ h4, h3]
          · rename_i h4
            simp [pair_trace_of _ _ _ h4, h3]

end Traces

/-! ## The query -/

section Query

variable {X : Type}

theorem SearchAllModules_loop_trace (env : Env X) (client : Nat) (kw : String)
    (mts : List String) (uniq : GoMap CourseInfo) (w : World X) :
    (jwxt.SearchAllModules.loop env client kw mts uniq w).2.trace = w.trace := by
  induction mts generalizing uniq w with
  | nil => rfl
  | cons mt rest ih =>
    unfold jwxt.SearchAllModules.loop
    split
    · rfl
    · simp only
      split
      · rfl
      · rw [ih]

theorem SearchAllModules_trace (env : Env X) (client : Nat) (kw : String) (w : World X) :
    (jwxt.SearchAllModules env client kw w).2.trace = w.trace := by
  unfold jwxt.SearchAllModules
  split
  · rename_i h
    rw [pair_trace_of _ _ _ h, SearchAllModules_loop_trace]
  · rename_i h
    rw [pair_trace_of _ _ _ h, SearchAllModules_loop_trace]

theorem scrapedOf_append (a b : List Event) : scrapedOf (a ++ b) = scrapedOf a ++ scrapedOf b := by
  induction a with
  | nil => rfl
  | cons e rest ih =>
    cases e with
    | search kw r =>
      cases r with
      | ok courses => simp [scrapedOf, ih]
      | error err => simp [scrapedOf, ih]
    | _ => simp [scrapedOf, ih]

theorem merge_append (current : Snapshot) (a b : List CourseInfo) :
    queryCurrentCourses.merge current (a ++ b)
      = queryCurrentCourses.merge (queryCurrentCourses.merge current a) b := by
  unfold queryCurrentCourses.merge
  rw [List.foldl_append]

theorem query_loop_spec (env : Env X) (m : Monitor) (kws : List String) (current : Snapshot)
    (w : World X) :
    ∃ d, (queryCurrentCourses.loop env m kws current w).2.trace = w.trace ++ d ∧
      QuerySpec kws current (queryCurrentCourses.loop env m kws current w).1 d := by
  induction kws generalizing current w with
  | nil =>
    refine ⟨[], by simp [queryCurrentCourses.loop], ?_⟩
    simp [queryCurrentCourses.loop, QuerySpec, scrapedOf, queryCurrentCourses.merge, searchesOf]
  | cons kw rest ih =>
    unfold queryCurrentCourses.loop
    split
    · rename_i w1 hc
      have ht := pair_trace_of _ _ _ hc
      have hb : (ctxDone env w).1 = true := by rw [hc]
      rw [ctxDone_trace, hb] at ht
      refine ⟨[.ctxCheck true], ht, ?_⟩
      simp [QuerySpec, Event.isQueryEvent, Event.isFailedSearch]
    · rename_i w1 hc
      have ht := pair_trace_of _ _ _ hc
      have hb : (ctxDone env w).1 = false := by rw [hc]
      rw [ctxDone_trace, hb] at ht
      split
      · rename_i err w2 hs
        have ht2 := pair_trace_of _ _ _ hs
        rw [SearchAllModules_trace, ht] at ht2
        refine ⟨[.ctxCheck false, .search kw (.error err)], by simp [ht2], ?_⟩
        refine ⟨by simp [Event.isQueryEvent], ?_⟩
        simp only
        left
        refine ⟨[.ctxCheck false], kw, err, rest, by simp, by simp [Event.isFailedSearch],
          rfl, by simp [searchesOf, Event.searchKeyword]⟩
      · rename_i courses w2 hs
        have ht2 := pair_trace_of _ _ _ hs
        rw [SearchAllModules_trace, ht] at ht2
        obtain ⟨d, hd, hspec⟩ := ih (queryCurrentCourses.merge current courses)
          (w2.emit (.search kw (.ok courses)))
        refine ⟨[.ctxCheck false, .search kw (.ok courses)] ++ d, by simp [hd, ht2], ?_⟩
        obtain ⟨hq, hres⟩ := hspec
        refine ⟨?_, ?_⟩
        · intro e he
          rcases List.mem_append.mp he with h | h
          · simp at h
            rcases h with rfl | rfl <;> rfl
          · exact hq e h
        · revert hres
          cases queryCurrentCourses.loop env m rest (queryCurrentCourses.merge current courses)
            (w2.emit (.search kw (.ok courses))) with
          | mk res wf =>
            cases res with
            | ok cur =>
              simp only
              rintro ⟨hf, hcur, hsearch⟩
              refine ⟨?_, ?_, ?_⟩
              · intro e he
                rcases List.mem_append.mp he with h | h
                · simp at h
                  rcases h with rfl | rfl <;> rfl
                · exact hf e h
              · rw [hcur]
                simp [scrapedOf, merge_append]
              · simp [searchesOf, Event.searchKeyword] at hsearch ⊢
                exact hsearch
            | error err =>
              simp only
              rintro (⟨d0, kw', e0, rest', hd0, hf0, herr, hk⟩ | ⟨herr, hf⟩)
              · left
                refine ⟨[.ctxCheck false, .search kw (.ok courses)] ++ d0, kw', e0, rest',
                  by simp [hd0], ?_, herr, ?_⟩
                · intro e he
                  rcases List.mem_append.mp he with h | h
                  · simp at h
                    rcases h with rfl | rfl <;> rfl
                  · exact hf0 e h
                · simp [searchesOf, Event.searchKeyword] at hk ⊢
                  exact hk
              · right
                refine ⟨herr, ?_⟩
                intro e he
                rcases List.mem_append.mp he with h | h
                · simp at h
                  rcases h with rfl | rfl <;> rfl
                · exact hf e h

end Query

/-! ## Assignment into a map -/

namespace GoMap

variable {V : Type}

theorem get?_set (m : GoMap V) (k k' : String) (v : V) :
    (m.set k v).get? k' = if k = k' then some v else m.get? k' := by
  induction m with
  | nil =>
    by_cases h : k = k' <;> simp [set, get?, h]
  | cons e rest ih =>
    obtain ⟨k0, v0⟩ := e
    by_cases h0 : k0 = k
    · subst h0
      by_cases h : k0 = k' <;> simp [set, get?, h]
    · by_cases h : k = k'
      · subst h
        simp [set, get?, h0, ih]
      · by_cases h1 : k0 = k'
        · subst h1
          simp [set, get?, h0, h]
        · simp [set, get?, h0, h, h1, ih]

theorem keys_set (m : GoMap V) (k : String) (v : V) :
    keys (m.set k v) = if k ∈ keys m then keys m else keys m ++ [k] := by
  induction m with
  | nil => simp [set, keys]
  | cons e rest ih =>
    obtain ⟨k0, v0⟩ := e
    by_cases h0 : k0 = k
    · subst h0
      simp [set, keys]
    · have h0' : ¬ k = k0 := fun h => h0 h.symm
      have ih' : List.map Prod.fst (set rest k v)
          = if k ∈ List.map Prod.fst rest then List.map Prod.fst rest
            else List.map Prod.fst rest ++ [k] := ih
      by_cases hin : k ∈ List.map Prod.fst rest
      · rw [if_pos hin] at ih'
        simp only [set, h0, if_false, keys, List.map_cons, ih', List.mem_cons, h0', false_or]
        rw [if_pos hin]
      · rw [if_neg hin] at ih'
        simp only [set, h0, if_false, keys, List.map_cons, ih', List.mem_cons, h0', false_or]
        rw [if_neg hin]
        rfl

theorem WF_set (m : GoMap V) (k : String) (v : V) (h : m.WF) : (m.set k v).WF := by
  unfold WF at *
  rw [keys_set]
  by_cases hin : k ∈ keys m
  · rw [if_pos hin]; exact h
  · rw [if_neg hin]
    exact List.Nodup.append h (List.nodup_singleton k) (by simpa using hin)

theorem mem_keys_iff_get? (m : GoMap V) (k : String) : k ∈ keys m ↔ ∃ v, m.get? k = some v := by
  have h := get?_eq_none_iff m k
  cases hg : m.get? k with
  | none => simp [h.mp hg]
  | some v =>
    have : k ∈ keys m := by
      by_contra hc
      rw [h.mpr hc] at hg
      cases hg
    simp [this]

end GoMap

/-! ## The merge of search results -/

theorem uniqueKey_eq_underscore_iff (c : CourseInfo) : c.UniqueKey = "_" ↔ BothBlank c := by
  unfold CourseInfo.UniqueKey BothBlank
  generalize TrimSpace c.Jx02id = a
  generalize TrimSpace c.Jx0404id = b
  rw [String.ext_iff, String.ext_iff, String.ext_iff]
  simp only [String.data_append]
  cases a.data with
  | nil => simp
  | cons x xs => simp

theorem lastWithKey_some (courses : List CourseInfo) (k : String) (x : CourseInfo)
    (h : lastWithKey courses k = some x) : x ∈ courses ∧ x.UniqueKey = k := by
  induction courses with
  | nil => simp [lastWithKey] at h
  | cons c rest ih =>
    unfold lastWithKey at h
    cases hr : lastWithKey rest k with
    | some y =>
      rw [hr] at h
      simp only [Option.some.injEq] at h
      subst h
      exact ⟨List.mem_cons_of_mem _ (ih hr).1, (ih hr).2⟩
    | none =>
      rw [hr] at h
      by_cases hc : c.UniqueKey = k
      · simp [hc] at h
        subst h
        exact ⟨List.mem_cons_self _ _, hc⟩
      · simp [hc] at h

theorem lastWithKey_eq_none_iff (courses : List CourseInfo) (k : String) :
    lastWithKey courses k = none ↔ ∀ c ∈ courses, c.UniqueKey ≠ k := by
  induction courses with
  | nil => simp [lastWithKey]
  | cons c rest ih =>
    unfold lastWithKey
    cases hr : lastWithKey rest k with
    | some y =>
      simp only [reduceCtorEq, false_iff]
      intro hall
      have := lastWithKey_some rest k y hr
      exact hall y (List.mem_cons_of_mem _ this.1) this.2
    | none =>
      have hrest := ih.mp hr
      by_cases hc : c.UniqueKey = k
      · simp [hc]
      · simp only [hc, if_false, true_iff]
        intro x hx
        rcases List.mem_cons.mp hx with rfl | hx
        · exact hc
        · exact hrest x hx

theorem lastWithKey_cons (c : CourseInfo) (rest : List CourseInfo) (k : String) :
    lastWithKey (c :: rest) k
      = match lastWithKey rest k with
        | some x => some x
        | none => if c.UniqueKey = k then some c else none := rfl

theorem lastWithKey_append (a b : List CourseInfo) (k : String) :
    lastWithKey (a ++ b) k
      = match lastWithKey b k with
        | some x => some x
        | none => lastWithKey a k := by
  induction a with
  | nil =>
    cases h : lastWithKey b k <;> simp [lastWithKey, h]
  | cons c rest ih =>
    cases h : lastWithKey b k <;> rw [h] at ih <;> simp only at ih <;>
      simp [lastWithKey, ih]

theorem merge_cons (current : Snapshot) (c : CourseInfo) (rest : List CourseInfo) :
    queryCurrentCourses.merge current (c :: rest)
      = queryCurrentCourses.merge
          (if c.UniqueKey = "_" then current else current.set c.UniqueKey c) rest := by
  simp [queryCurrentCourses.merge]

theorem merge_get? (current : Snapshot) (courses : List CourseInfo) (k : String) :
    GoMap.get? (queryCurrentCourses.merge current courses) k
      = if k = "_" then GoMap.get? current k
        else match lastWithKey courses k with
          | some x => some x
          | none => GoMap.get? current k := by
  induction courses generalizing current with
  | nil =>
    simp [queryCurrentCourses.merge, lastWithKey]
  | cons c rest ih =>
    rw [merge_cons, ih]
    by_cases hk : k = "_"
    · simp only [hk, if_true]
      by_cases hc : c.UniqueKey = "_"
      · simp [hc]
      · simp [hc, GoMap.get?_set]
    · simp only [hk, if_false]
      rw [lastWithKey_cons]
      cases hr : lastWithKey rest k with
      | some y => simp
      | none =>
        simp only
        by_cases hc : c.UniqueKey = "_"
        · have hne : ¬ "_" = k := fun h => hk h.symm
          rw [hc]
          simp [hne]
        · by_cases hck : c.UniqueKey = k
          · rw [if_neg hc, if_pos hck, GoMap.get?_set, if_pos hck]
          · rw [if_neg hc, if_neg hck, GoMap.get?_set, if_neg hck]

theorem merge_WF (current : Snapshot) (courses : List CourseInfo) (h : GoMap.WF current) :
    GoMap.WF (queryCurrentCourses.merge current courses) := by
  induction courses generalizing current with
  | nil => simpa [queryCurrentCourses.merge] using h
  | cons c rest ih =>
    rw [merge_cons]
    apply ih
    by_cases hc : c.UniqueKey = "_"
    · simpa [hc] using h
    · simpa [hc] using GoMap.WF_set current c.UniqueKey c h

theorem merge_empty_get?_some (courses : List CourseInfo) (k : String) (r : CourseInfo)
    (h : GoMap.get? (queryCurrentCourses.merge [] courses) k = some r) :
    r ∈ courses ∧ r.UniqueKey = k ∧ k ≠ "_" := by
  rw [merge_get?] at h
  by_cases hk : k = "_"
  · simp [hk, GoMap.get?] at h
  · simp only [hk, if_false] at h
    cases hr : lastWithKey courses k with
    | some y =>
      rw [hr] at h
      simp only [Option.some.injEq] at h
      subst h
      exact ⟨(lastWithKey_some courses k y hr).1, (lastWithKey_some courses k y hr).2, hk⟩
    | none =>
      rw [hr] at h
      simp [GoMap.get?] at h

theorem merge_empty_mem_keys (courses : List CourseInfo) (r : CourseInfo) (hr : r ∈ courses) :
    r.UniqueKey ∈ GoMap.keys (queryCurrentCourses.merge [] courses) ↔ r.UniqueKey ≠ "_" := by
  rw [GoMap.mem_keys_iff_get?]
  constructor
  · rintro ⟨v, hv⟩
    exact (merge_empty_get?_some courses _ v hv).2.2
  · intro hk
    rw [merge_get?]
    simp only [hk, if_false]
    cases hl : lastWithKey courses r.UniqueKey with
    | some y => exact ⟨y, rfl⟩
    | none =>
      exact absurd rfl ((lastWithKey_eq_none_iff courses _).mp hl r hr)

theorem merge_empty_keeps_last (pre post : List CourseInfo) (r : CourseInfo)
    (hk : r.UniqueKey ≠ "_") (hpost : ∀ c ∈ post, c.UniqueKey ≠ r.UniqueKey) :
    GoMap.get? (queryCurrentCourses.merge [] (pre ++ r :: post)) r.UniqueKey = some r := by
  rw [merge_get?]
  simp only [hk, if_false]
  rw [lastWithKey_append]
  have h1 : lastWithKey (r :: post) r.UniqueKey = some r := by
    rw [lastWithKey_cons, (lastWithKey_eq_none_iff post _).mpr hpost]
    simp
  rw [h1]

/-! ## One poll cycle after a successful query -/

section Round

variable {X : Type}

theorem broadcastsOf_query (d : List Event) (h : ∀ e ∈ d, e.isQueryEvent = true) :
    broadcastsOf d = [] := by
  unfold broadcastsOf
  rw [List.filterMap_eq_nil_iff]
  intro e he
  have := h e he
  cases e <;> simp_all [Event.isQueryEvent, Event.broadcastText]

theorem savesOf_query (d : List Event) (h : ∀ e ∈ d, e.isQueryEvent = true) :
    savesOf d = [] := by
  unfold savesOf
  rw [List.filterMap_eq_nil_iff]
  intro e he
  have := h e he
  cases e <;> simp_all [Event.isQueryEvent, Event.savedData]

theorem query_events (env : Env X) (m : Monitor) (w : World X) :
    ∃ d, (m.queryCurrentCourses env w).2.trace = w.trace ++ d ∧
      QuerySpec m.config.CourseList [] (m.queryCurrentCourses env w).1 d :=
  query_loop_spec env m m.config.CourseList [] w

theorem query_result_invariant (env : Env X) (m : Monitor) (w : World X) (current : Snapshot)
    (hq : (m.queryCurrentCourses env w).1 = .ok current) :
    GoMap.WF current ∧ KeyedByUniqueKey current := by
  obtain ⟨d, _, hspec⟩ := query_events env m w
  rw [hq] at hspec
  have hm : current = queryCurrentCourses.merge [] (scrapedOf d) := hspec.2.2.1
  have hwf : GoMap.WF current := by
    rw [hm]
    exact merge_WF [] _ (by simp [GoMap.WF, GoMap.keys])
  refine ⟨hwf, ?_⟩
  intro e he
  have hg := GoMap.get?_of_mem current hwf e.1 e.2 he
  rw [hm] at hg
  exact (merge_empty_get?_some _ e.1 e.2 hg).2.1

/-- C1: a snapshot maps each record's key to the record, and every current
snapshot diffAdded is called with is the result of queryCurrentCourses, whose
keys are distinct and equal `UniqueKey()` of the records stored under them.
For every previous snapshot and every current map `C`, diffAdded returns
exactly one record for each key that `C` has and the previous snapshot lacks,
and no other record, each the record `C` maps the key to, ordered by
`UniqueKey()`.  When the keys of `C` are the `UniqueKey()` of its records, and so
for every result of queryCurrentCourses, the sequence is in strictly ascending
order of those mapping keys, and it is the same in whatever order the map is
visited and however `sort.Slice` arranges it. -/
theorem diffAdded_correct (m : Monitor) (C : Snapshot) (hwf : GoMap.WF C) :
    (∃ ks : List String, ks.Nodup ∧
      (∀ k, k ∈ ks ↔ k ∈ GoMap.keys C ∧ k ∉ GoMap.keys m.lastResult) ∧
      (m.diffAdded C).map some = ks.map (GoMap.get? C)) ∧
    ((m.diffAdded C).map CourseInfo.UniqueKey).Sorted (· ≤ ·) ∧
    (KeyedByUniqueKey C →
      DiffCorrect m.lastResult C (m.diffAdded C) ∧
      (∀ C' out, C'.Perm C → out.Perm (diffAdded.collect m.lastResult C') →
        (out.map CourseInfo.UniqueKey).Sorted (· ≤ ·) → out = m.diffAdded C)) ∧
    (∀ (Y : Type) (env : Env Y) (caller : Monitor) (w : World Y),
      (caller.queryCurrentCourses env w).1 = .ok C →
        KeyedByUniqueKey C ∧ DiffCorrect m.lastResult C (m.diffAdded C)) := by
  refine ⟨diffAdded_content m C hwf, diffAdded_sorted_le m C, ?_, ?_⟩
  · intro hkey
    refine ⟨diffAdded_keyed_correct m C hwf hkey, ?_⟩
    intro C' out hperm hout hs
    exact diffAdded_order_independent m C C' hwf hkey hperm out hout hs
  · intro Y env caller w hq
    have hkey := (query_result_invariant env caller w C hq).2
    exact ⟨hkey, diffAdded_keyed_correct m C hwf hkey⟩

/-- Witness of `diffAdded_correct`: the previous snapshot holds A; the portal
returns A, B and C, in the order C, A, B. -/
theorem diffAdded_correct_witness :
    GoMap.WF [("C_1", recC), ("A_1", recA), ("B_1", recB)] ∧
    ((monitorWith [] false).queryCurrentCourses
      (scriptedEnv (fun _ => .ok [recC, recA, recB]) none none 0 100) emptyWorld).1
        = .ok [("C_1", recC), ("A_1", recA), ("B_1", recB)] ∧
    (monitorWith [("A_1", recA)] true).diffAdded [("C_1", recC), ("A_1", recA), ("B_1", recB)]
      = [recB, recC] ∧
    DiffCorrect [("A_1", recA)] [("C_1", recC), ("A_1", recA), ("B_1", recB)]
      ((monitorWith [("A_1", recA)] true).diffAdded
        [("C_1", recC), ("A_1", recA), ("B_1", recB)]) :=
  ⟨by decide, by decide, by decide,
    ((diffAdded_correct (monitorWith [("A_1", recA)] true)
      [("C_1", recC), ("A_1", recA), ("B_1", recB)] (by decide)).2.2.2 Nat
      (scriptedEnv (fun _ => .ok [recC, recA, recB]) none none 0 100)
      (monitorWith [] false) emptyWorld (by decide)).2⟩

theorem runRound_ok_baseline (env : Env X) (fuel : Nat) (m : Monitor) (w : World X)
    (current : Snapshot) (hb : m.hasBaseline = false)
    (hq : (m.queryCurrentCourses env w).1 = .ok current) :
    m.runRound env fuel w
      = (true, { m with lastResult := current, hasBaseline := true },
          (Monitor.saveSnapshot env { m with lastResult := current, hasBaseline := true }
            current (m.queryCurrentCourses env w).2).2) := by
  unfold Monitor.runRound
  split
  · rename_i err w1 h
    rw [h] at hq
    cases hq
  · rename_i cur w1 h
    rw [h] at hq
    cases hq
    simp [hb, h]

theorem runRound_ok_diff (env : Env X) (fuel : Nat) (m : Monitor) (w : World X)
    (current : Snapshot) (hb : m.hasBaseline = true)
    (hq : (m.queryCurrentCourses env w).1 = .ok current) :
    m.runRound env fuel w
      = (true, { m with lastResult := current },
          (Monitor.saveSnapshot env { m with lastResult := current } current
            (if (m.diffAdded current).length > 0 then
              (BroadcastMessage env (notify.FormatCoursesMessage (m.diffAdded current))
                (m.queryCurrentCourses env w).2).2
            else (m.queryCurrentCourses env w).2)).2) := by
  unfold Monitor.runRound
  split
  · rename_i err w1 h
    rw [h] at hq
    cases hq
  · rename_i cur w1 h
    rw [h] at hq
    cases hq
    simp [hb, h]

theorem broadcastsOf_append (a b : List Event) :
    broadcastsOf (a ++ b) = broadcastsOf a ++ broadcastsOf b := by
  simp [broadcastsOf]

theorem savesOf_append (a b : List Event) : savesOf (a ++ b) = savesOf a ++ savesOf b := by
  simp [savesOf]

theorem runRound_baseline_events (env : Env X) (fuel : Nat) (m : Monitor) (w : World X)
    (current : Snapshot) (hb : m.hasBaseline = false)
    (hq : (m.queryCurrentCourses env w).1 = .ok current) :
    ∃ d, ((∀ e ∈ d, e.isQueryEvent = true) ∧ ∀ e ∈ d, e.isFailedSearch = false) ∧
      eventsSince w (m.runRound env fuel w).2.2 = d ++ [.saveSnapshot current] := by
  rw [runRound_ok_baseline env fuel m w current hb hq]
  obtain ⟨d, hd, hspec⟩ := query_events env m w
  rw [hq] at hspec
  refine ⟨d, ⟨hspec.1, hspec.2.1⟩, ?_⟩
  apply eventsSince_of_append
  rw [saveSnapshot_trace, hd, List.append_assoc]

/-- C2: when the baseline flag is false and the query succeeds with `current`,
the cycle returns, broadcasts nothing, sets the in-memory snapshot to
`current`, sets the baseline flag, and calls saveSnapshot exactly once, with
`current`. -/
theorem runRound_baseline_suppression (env : Env X) (fuel : Nat) (m : Monitor) (w : World X)
    (current : Snapshot) (hb : m.hasBaseline = false)
    (hq : (m.queryCurrentCourses env w).1 = .ok current) :
    (m.runRound env fuel w).1 = true ∧
    broadcastsOf (eventsSince w (m.runRound env fuel w).2.2) = [] ∧
    (m.runRound env fuel w).2.1.lastResult = current ∧
    (m.runRound env fuel w).2.1.hasBaseline = true ∧
    savesOf (eventsSince w (m.runRound env fuel w).2.2) = [current] := by
  rw [runRound_ok_baseline env fuel m w current hb hq]
  obtain ⟨d, hd, hspec⟩ := query_events env m w
  have hev : eventsSince w (Monitor.saveSnapshot env
      { m with lastResult := current, hasBaseline := true } current
      (m.queryCurrentCourses env w).2).2 = d ++ [.saveSnapshot current] := by
    apply eventsSince_of_append
    rw [saveSnapshot_trace, hd, List.append_assoc]
  simp only [hev, broadcastsOf_append, savesOf_append, broadcastsOf_query d hspec.1,
    savesOf_query d hspec.1]
  simp [broadcastsOf, savesOf, Event.broadcastText, Event.savedData]

/-- Witness of `runRound_baseline_suppression`: no baseline, the portal returns
three records, and both the disk and the chat transport are broken. -/
theorem runRound_baseline_suppression_witness :
    (monitorWith [] false).hasBaseline = false ∧
    ((monitorWith [] false).queryCurrentCourses
      (scriptedEnv portalABC (some (.other "chat down")) (some (.other "disk full")) 0 100)
      emptyWorld).1 = .ok [("A_1", recA), ("B_1", recB), ("C_1", recC)] ∧
    broadcastsOf (eventsSince emptyWorld ((monitorWith [] false).runRound
      (scriptedEnv portalABC (some (.other "chat down")) (some (.other "disk full")) 0 100)
      3 emptyWorld).2.2) = [] ∧
    ((monitorWith [] false).runRound
      (scriptedEnv portalABC (some (.other "chat down")) (some (.other "disk full")) 0 100)
      3 emptyWorld).2.1.lastResult = [("A_1", recA), ("B_1", recB), ("C_1", recC)] :=
  have h := runRound_baseline_suppression
    (scriptedEnv portalABC (some (.other "chat down")) (some (.other "disk full")) 0 100)
    3 (monitorWith [] false) emptyWorld [("A_1", recA), ("B_1", recB), ("C_1", recC)]
    rfl (by decide)
  ⟨rfl, by decide, h.2.1, h.2.2.1⟩

theorem diffAdded_one_new (m : Monitor) (current : Snapshot) (kA kB kC : String)
    (A B C : CourseInfo) (hlast : m.lastResult = [(kA, A), (kB, B)])
    (hcur : current.Perm [(kA, A), (kB, B), (kC, C)]) (hA : kC ≠ kA) (hB : kC ≠ kB) :
    m.diffAdded current = [C] := by
  have hp := diffAdded_perm m current
  have hf := (hcur.filter (fun e => (GoMap.get? m.lastResult e.1).isNone)).map Prod.snd
  have hA' : ¬ kA = kC := fun h => hA h.symm
  have hB' : ¬ kB = kC := fun h => hB h.symm
  have hlist : List.map Prod.snd (List.filter (fun e => (GoMap.get? m.lastResult e.1).isNone)
      [(kA, A), (kB, B), (kC, C)]) = [C] := by
    by_cases hAB : kA = kB <;> simp [hlast, List.filter_cons, GoMap.get?, hA', hB', hAB]
  rw [hlist] at hf
  exact List.perm_singleton.mp (hp.trans hf)

theorem FormatCoursesMessage_one (C : CourseInfo) :
    notify.FormatCoursesMessage [C]
      = "【选课监控】发现新课程！\n" ++ notify.courseBlock C ++ "━━━━━━━━━━━━━━━━" := by
  simp [notify.FormatCoursesMessage, notify.FormatCoursesMessage.loop]

theorem intercalate_go_append (x acc sep : String) (l : List String) :
    String.intercalate.go (x ++ acc) sep l = x ++ String.intercalate.go acc sep l := by
  induction l generalizing acc with
  | nil => rfl
  | cons a rest ih =>
    simp only [String.intercalate.go]
    rw [String.append_assoc, String.append_assoc, ← String.append_assoc acc]
    exact ih _

theorem FormatCoursesMessage_loop_succ (i : Nat) (rest : List CourseInfo) (b : String) :
    notify.FormatCoursesMessage.loop (i + 1) rest b
      = String.intercalate.go b "\n" (rest.map notify.courseBlock) := by
  induction rest generalizing i b with
  | nil => rfl
  | cons c rest ih =>
    simp only [notify.FormatCoursesMessage.loop, List.map_cons, String.intercalate.go]
    rw [if_pos (Nat.succ_pos i)]
    exact ih (i + 1) _

theorem FormatCoursesMessage_of_ne (courses : List CourseInfo) (h : courses ≠ []) :
    notify.FormatCoursesMessage courses
      = "【选课监控】发现新课程！\n"
          ++ String.intercalate "\n" (courses.map notify.courseBlock)
          ++ "━━━━━━━━━━━━━━━━" := by
  cases courses with
  | nil => exact absurd rfl h
  | cons c rest =>
    unfold notify.FormatCoursesMessage
    rw [if_neg (by simp)]
    simp only [notify.FormatCoursesMessage.loop, List.map_cons, String.intercalate]
    rw [if_neg (lt_irrefl 0), FormatCoursesMessage_loop_succ, intercalate_go_append]

theorem runRound_diff_events (env : Env X) (fuel : Nat) (m : Monitor) (w : World X)
    (current : Snapshot) (hb : m.hasBaseline = true)
    (hq : (m.queryCurrentCourses env w).1 = .ok current) :
    ∃ d, ((∀ e ∈ d, e.isQueryEvent = true) ∧ ∀ e ∈ d, e.isFailedSearch = false) ∧
      eventsSince w (m.runRound env fuel w).2.2
        = d ++ (if (m.diffAdded current).length > 0 then
            [.broadcast (notify.FormatCoursesMessage (m.diffAdded current))
              (BroadcastMessage env (notify.FormatCoursesMessage (m.diffAdded current))
                (m.queryCurrentCourses env w).2).1]
          else []) ++ [.saveSnapshot current] := by
  rw [runRound_ok_diff env fuel m w current hb hq]
  obtain ⟨d, hd, hspec⟩ := query_events env m w
  rw [hq] at hspec
  refine ⟨d, ⟨hspec.1, hspec.2.1⟩, ?_⟩
  apply eventsSince_of_append
  by_cases hpos : (m.diffAdded current).length > 0
  · rw [if_pos hpos, if_pos hpos, saveSnapshot_trace, BroadcastMessage_trace, hd]
    simp only [List.append_assoc]
  · rw [if_neg hpos, if_neg hpos, saveSnapshot_trace, hd]
    simp only [List.append_assoc, List.append_nil]

theorem runRound_diff_broadcasts_of_ne (env : Env X) (fuel : Nat) (m : Monitor) (w : World X)
    (current : Snapshot) (hb : m.hasBaseline = true)
    (hq : (m.queryCurrentCourses env w).1 = .ok current) (hadd : m.diffAdded current ≠ []) :
    broadcastsOf (eventsSince w (m.runRound env fuel w).2.2)
      = [notify.FormatCoursesMessage (m.diffAdded current)] := by
  obtain ⟨d, hqe, hev⟩ := runRound_diff_events env fuel m w current hb hq
  have hpos : (m.diffAdded current).length > 0 := List.length_pos.mpr hadd
  rw [hev, if_pos hpos, broadcastsOf_append, broadcastsOf_append, broadcastsOf_query d hqe.1]
  rfl

theorem runRound_diff_broadcasts_of_nil (env : Env X) (fuel : Nat) (m : Monitor) (w : World X)
    (current : Snapshot) (hb : m.hasBaseline = true)
    (hq : (m.queryCurrentCourses env w).1 = .ok current) (hadd : m.diffAdded current = []) :
    broadcastsOf (eventsSince w (m.runRound env fuel w).2.2) = [] := by
  obtain ⟨d, hqe, hev⟩ := runRound_diff_events env fuel m w current hb hq
  have hpos : ¬ (m.diffAdded current).length > 0 := by simp [hadd]
  rw [hev, if_neg hpos, broadcastsOf_append, broadcastsOf_append, broadcastsOf_query d hqe.1]
  rfl

theorem runRound_diff_saves (env : Env X) (fuel : Nat) (m : Monitor) (w : World X)
    (current : Snapshot) (hb : m.hasBaseline = true)
    (hq : (m.queryCurrentCourses env w).1 = .ok current) :
    savesOf (eventsSince w (m.runRound env fuel w).2.2) = [current] ∧
    (eventsSince w (m.runRound env fuel w).2.2).getLast? = some (.saveSnapshot current) := by
  obtain ⟨d, hqe, hev⟩ := runRound_diff_events env fuel m w current hb hq
  rw [hev, savesOf_append, savesOf_append, savesOf_query d hqe.1]
  refine ⟨?_, by simp⟩
  by_cases hpos : (m.diffAdded current).length > 0
  · rw [if_pos hpos]; rfl
  · rw [if_neg hpos]; rfl

/-- C4: when the baseline flag is set and the query succeeds with `current`, the
cycle broadcasts if and only if diffAdded is non-empty; it then broadcasts
exactly once, the text being FormatCoursesMessage of the added records in
diffAdded's order: the heading, one block per added record with a line feed
between consecutive blocks, and the closing rule.  That order is ascending key
order and is the same in whatever order the map is visited and however
`sort.Slice` arranges the records; the new in-memory snapshot is `current`.
With previous snapshot A, B and current snapshot A, B, C the one text holds the
block of C alone. -/
theorem runRound_notifies_added (env : Env X) (fuel : Nat) (m : Monitor) (w : World X)
    (current : Snapshot) (hb : m.hasBaseline = true)
    (hq : (m.queryCurrentCourses env w).1 = .ok current) :
    (broadcastsOf (eventsSince w (m.runRound env fuel w).2.2) ≠ [] ↔ m.diffAdded current ≠ []) ∧
    (m.diffAdded current ≠ [] →
      broadcastsOf (eventsSince w (m.runRound env fuel w).2.2)
        = [notify.FormatCoursesMessage (m.diffAdded current)]) ∧
    (m.diffAdded current ≠ [] →
      broadcastsOf (eventsSince w (m.runRound env fuel w).2.2)
        = ["【选课监控】发现新课程！\n" ++
            String.intercalate "\n" ((m.diffAdded current).map (fun c =>
              "━━━━━━━━━━━━━━━━\n" ++
              "课程名称：" ++ (if TrimSpace c.Kcmc = "" then "未知" else TrimSpace c.Kcmc) ++ "\n" ++
              "课程号：" ++ (if TrimSpace c.Kch = "" then "未知" else TrimSpace c.Kch) ++ "\n" ++
              "授课教师：" ++ (if TrimSpace c.Skls = "" then "未知" else TrimSpace c.Skls) ++ "\n" ++
              "上课时间：" ++ (if TrimSpace c.Sksj = "" then "未知" else TrimSpace c.Sksj) ++ "\n" ++
              "上课地点：" ++ (if TrimSpace c.Skdd = "" then "未知" else TrimSpace c.Skdd) ++ "\n" ++
              "剩余人数：" ++ (if TrimSpace c.Syrs = "" then "未知" else TrimSpace c.Syrs) ++ "\n" ++
              "已选/排课：" ++ toString c.Xkrs.val ++ "/" ++ toString c.Pkrs.val ++ "\n" ++
              "开课单位：" ++ (if TrimSpace c.Dwmc = "" then "未知" else TrimSpace c.Dwmc) ++ "\n")) ++
            "━━━━━━━━━━━━━━━━"]) ∧
    ((m.diffAdded current).map CourseInfo.UniqueKey).Sorted (· < ·) ∧
    (∀ C' out, C'.Perm current → out.Perm (diffAdded.collect m.lastResult C') →
      (out.map CourseInfo.UniqueKey).Sorted (· ≤ ·) → out = m.diffAdded current) ∧
    (m.runRound env fuel w).2.1.lastResult = current ∧
    (∀ (kA kB kC : String) (A B C : CourseInfo), m.lastResult = [(kA, A), (kB, B)] →
      current.Perm [(kA, A), (kB, B), (kC, C)] → kC ≠ kA → kC ≠ kB →
      broadcastsOf (eventsSince w (m.runRound env fuel w).2.2)
        = ["【选课监控】发现新课程！\n" ++
            ("━━━━━━━━━━━━━━━━\n" ++
            "课程名称：" ++ (if TrimSpace C.Kcmc = "" then "未知" else TrimSpace C.Kcmc) ++ "\n" ++
            "课程号：" ++ (if TrimSpace C.Kch = "" then "未知" else TrimSpace C.Kch) ++ "\n" ++
            "授课教师：" ++ (if TrimSpace C.Skls = "" then "未知" else TrimSpace C.Skls) ++ "\n" ++
            "上课时间：" ++ (if TrimSpace C.Sksj = "" then "未知" else TrimSpace C.Sksj) ++ "\n" ++
            "上课地点：" ++ (if TrimSpace C.Skdd = "" then "未知" else TrimSpace C.Skdd) ++ "\n" ++
            "剩余人数：" ++ (if TrimSpace C.Syrs = "" then "未知" else TrimSpace C.Syrs) ++ "\n" ++
            "已选/排课：" ++ toString C.Xkrs.val ++ "/" ++ toString C.Pkrs.val ++ "\n" ++
            "开课单位：" ++ (if TrimSpace C.Dwmc = "" then "未知" else TrimSpace C.Dwmc) ++ "\n") ++
            "━━━━━━━━━━━━━━━━"]) := by
  have hne := runRound_diff_broadcasts_of_ne env fuel m w current hb hq
  have hemp := runRound_diff_broadcasts_of_nil env fuel m w current hb hq
  obtain ⟨hwf, hkey⟩ := query_result_invariant env m w current hq
  refine ⟨?_, hne, ?_, ?_, ?_, ?_, ?_⟩
  · constructor
    · intro h hadd
      exact h (hemp hadd)
    · intro hadd
      rw [hne hadd]
      simp
  · intro hadd
    rw [hne hadd, FormatCoursesMessage_of_ne _ hadd]
    rfl
  · exact (diffAdded_sorted_le m current).lt_of_le (diffAdded_keys_nodup m current hwf hkey)
  · intro C' out hperm hout hs
    exact diffAdded_order_independent m current C' hwf hkey hperm out hout hs
  · rw [runRound_ok_diff env fuel m w current hb hq]
  · intro kA kB kC A B C hlast hcur hA hB
    have hone := diffAdded_one_new m current kA kB kC A B C hlast hcur hA hB
    have := hne (by rw [hone]; simp)
    rw [this, hone, FormatCoursesMessage_one]
    rfl

/-- Witness of `runRound_notifies_added`: previous snapshot A, B.  When the
portal returns A, B, C the one text lists C; when it returns A, B, D, C the one
text lists C and then D, with the text fields of D trimmed and its blank field
replaced. -/
theorem runRound_notifies_added_witness :
    (monitorWith [("A_1", recA), ("B_1", recB)] true).hasBaseline = true ∧
    ((monitorWith [("A_1", recA), ("B_1", recB)] true).queryCurrentCourses
      (scriptedEnv portalABC none none 0 100) emptyWorld).1
        = .ok [("A_1", recA), ("B_1", recB), ("C_1", recC)] ∧
    broadcastsOf (eventsSince emptyWorld
      ((monitorWith [("A_1", recA), ("B_1", recB)] true).runRound
        (scriptedEnv portalABC none none 0 100) 3 emptyWorld).2.2)
      = ["【选课监控】发现新课程！\n━━━━━━━━━━━━━━━━\n课程名称：Chemistry\n课程号：未知\n授课教师：未知\n上课时间：未知\n上课地点：未知\n剩余人数：未知\n已选/排课：0/0\n开课单位：未知\n━━━━━━━━━━━━━━━━"] ∧
    ((monitorWith [("A_1", recA), ("B_1", recB)] true).runRound
        (scriptedEnv portalABC none none 0 100) 3 emptyWorld).2.1.lastResult
      = [("A_1", recA), ("B_1", recB), ("C_1", recC)] ∧
    ((monitorWith [("A_1", recA), ("B_1", recB)] true).queryCurrentCourses
      (scriptedEnv portalABDC none none 0 100) emptyWorld).1
        = .ok [("A_1", recA), ("B_1", recB), ("D_1", recD), ("C_1", recC)] ∧
    (monitorWith [("A_1", recA), ("B_1", recB)] true).diffAdded
      [("A_1", recA), ("B_1", recB), ("D_1", recD), ("C_1", recC)] = [recC, recD] ∧
    broadcastsOf (eventsSince emptyWorld
      ((monitorWith [("A_1", recA), ("B_1", recB)] true).runRound
        (scriptedEnv portalABDC none none 0 100) 3 emptyWorld).2.2)
      = ["【选课监控】发现新课程！\n━━━━━━━━━━━━━━━━\n课程名称：Chemistry\n课程号：未知\n授课教师：未知\n上课时间：未知\n上课地点：未知\n剩余人数：未知\n已选/排课：0/0\n开课单位：未知\n\n━━━━━━━━━━━━━━━━\n课程名称：Data structures\n课程号：D100\n授课教师：未知\n上课时间：未知\n上课地点：未知\n剩余人数：12\n已选/排课：7/-1\n开课单位：计算机学院\n━━━━━━━━━━━━━━━━"] :=
  have h := runRound_notifies_added (scriptedEnv portalABC none none 0 100) 3
    (monitorWith [("A_1", recA), ("B_1", recB)] true) emptyWorld
    [("A_1", recA), ("B_1", recB), ("C_1", recC)] rfl (by decide)
  have h2 := runRound_notifies_added (scriptedEnv portalABDC none none 0 100) 3
    (monitorWith [("A_1", recA), ("B_1", recB)] true) emptyWorld
    [("A_1", recA), ("B_1", recB), ("D_1", recD), ("C_1", recC)] rfl (by decide)
  ⟨rfl, by decide,
    (h.2.2.2.2.2.2 "A_1" "B_1" "C_1" recA recB recC rfl (List.Perm.refl _) (by decide)
      (by decide)).trans (by decide),
    h.2.2.2.2.2.1,
    by decide, by decide,
    (h2.2.2.1 (by decide)).trans (by decide)⟩

/-- C7: when the baseline flag is set and the query succeeds with `current`,
then for every outcome of the broadcast and of saveSnapshot the cycle returns
with the in-memory snapshot equal to `current` and the baseline flag still
true, and saveSnapshot is called exactly once, with `current`, as the last
action of the cycle, after the broadcast whenever there is one. -/
theorem runRound_commit_independent (env : Env X) (fuel : Nat) (m : Monitor) (w : World X)
    (current : Snapshot) (hb : m.hasBaseline = true)
    (hq : (m.queryCurrentCourses env w).1 = .ok current) :
    (m.runRound env fuel w).1 = true ∧
    (m.runRound env fuel w).2.1.lastResult = current ∧
    (m.runRound env fuel w).2.1.hasBaseline = true ∧
    savesOf (eventsSince w (m.runRound env fuel w).2.2) = [current] ∧
    (eventsSince w (m.runRound env fuel w).2.2).getLast? = some (.saveSnapshot current) := by
  refine ⟨?_, ?_, ?_, runRound_diff_saves env fuel m w current hb hq⟩
  · rw [runRound_ok_diff env fuel m w current hb hq]
  · rw [runRound_ok_diff env fuel m w current hb hq]
  · rw [runRound_ok_diff env fuel m w current hb hq]
    exact hb

/-- Witness of `runRound_commit_independent`: the broadcast fails and every
disk operation fails, and the snapshot is committed all the same; the old
entry "Z_9" is gone. -/
theorem runRound_commit_independent_witness :
    (monitorWith [("A_1", recA), ("Z_9", recordOf "Z" "9")] true).hasBaseline = true ∧
    ((monitorWith [("A_1", recA), ("Z_9", recordOf "Z" "9")] true).queryCurrentCourses
      (scriptedEnv portalAB (some (.other "chat down")) (some (.other "disk full")) 0 100)
      emptyWorld).1 = .ok [("A_1", recA), ("B_1", recB)] ∧
    eventsSince emptyWorld
      ((monitorWith [("A_1", recA), ("Z_9", recordOf "Z" "9")] true).runRound
        (scriptedEnv portalAB (some (.other "chat down")) (some (.other "disk full")) 0 100)
        3 emptyWorld).2.2
      = [.ctxCheck false, .search "k1" (.ok [recA, recB]),
         .broadcast (notify.FormatCoursesMessage [recB]) (some (.other "chat down")),
         .saveSnapshot [("A_1", recA), ("B_1", recB)]] ∧
    ((monitorWith [("A_1", recA), ("Z_9", recordOf "Z" "9")] true).runRound
        (scriptedEnv portalAB (some (.other "chat down")) (some (.other "disk full")) 0 100)
        3 emptyWorld).2.1.lastResult = [("A_1", recA), ("B_1", recB)] :=
  have h := runRound_commit_independent
    (scriptedEnv portalAB (some (.other "chat down")) (some (.other "disk full")) 0 100) 3
    (monitorWith [("A_1", recA), ("Z_9", recordOf "Z" "9")] true) emptyWorld
    [("A_1", recA), ("B_1", recB)] rfl (by decide)
  ⟨rfl, by decide, by decide, h.2.1⟩

/-! ## Construction and the first cycle -/

theorem loadSnapshot_trace (env : Env X) (m : Monitor) (w : World X) :
    (m.loadSnapshot env w).2.trace = w.trace := by
  unfold Monitor.loadSnapshot
  split
  · rename_i h
    rw [pair_trace_of _ _ _ h, osReadFile_trace]
  · rename_i h
    have ht := pair_trace_of _ _ _ h
    rw [osReadFile_trace] at ht
    split
    · exact ht
    · split <;> exact ht

theorem loadSnapshot_of_empty (env : Env X) (m : Monitor) (w : World X) (content : Bytes)
    (hread : (osReadFile env m.snapshotPath w).1 = .ok content)
    (hempty : content.length = 0 ∨ jsonUnmarshal env content = .ok (some []) ∨
      jsonUnmarshal env content = .ok none) :
    (m.loadSnapshot env w).1 = .ok [] := by
  unfold Monitor.loadSnapshot
  split
  · rename_i h
    rw [h] at hread
    cases hread
  · rename_i c w1 h
    rw [h] at hread
    cases hread
    by_cases hlen : content.length = 0
    · simp [hlen]
    · rcases hempty with h0 | h1 | h2
      · exact absurd h0 hlen
      · simp [hlen, h1]
      · simp [hlen, h2]

theorem New_of_loaded (env : Env X) (cfg : Config) (w : World X) (loaded : Snapshot)
    (h : (Monitor.loadSnapshot env
      { client := env.GetClient w.ext, config := cfg, lastResult := [],
        hasBaseline := false, snapshotPath := defaultSnapshotPath } w).1 = .ok loaded) :
    (New env cfg w).1 =
      ({ client := env.GetClient w.ext, config := cfg, lastResult := loaded,
         hasBaseline := true, snapshotPath := defaultSnapshotPath } : Monitor) := by
  unfold New
  simp only
  split
  · rename_i s w1 hl
    rw [hl] at h
    cases h
    rfl
  · rename_i e w1 hl
    rw [hl] at h
    cases h

theorem diffAdded_two (m : Monitor) (current : Snapshot) (A B : CourseInfo)
    (hlast : m.lastResult = [])
    (hcur : current.Perm [(A.UniqueKey, A), (B.UniqueKey, B)])
    (hne : A.UniqueKey ≠ B.UniqueKey) :
    m.diffAdded current = if A.UniqueKey < B.UniqueKey then [A, B] else [B, A] := by
  have hp := diffAdded_perm m current
  have hf := (hcur.filter (fun e => (GoMap.get? m.lastResult e.1).isNone)).map Prod.snd
  have hlist : List.map Prod.snd (List.filter (fun e => (GoMap.get? m.lastResult e.1).isNone)
      [(A.UniqueKey, A), (B.UniqueKey, B)]) = [A, B] := by
    simp [hlast, List.filter_cons, GoMap.get?]
  rw [hlist] at hf
  have hperm := hp.trans hf
  have hs := diffAdded_sorted_le m current
  have hAB : A ≠ B := fun h => hne (by rw [h])
  have hlen := hperm.length_eq
  rcases hout : m.diffAdded current with _ | ⟨x, _ | ⟨y, _ | ⟨z, t⟩⟩⟩
  · rw [hout] at hlen; simp at hlen
  · rw [hout] at hlen; simp at hlen
  · rw [hout] at hperm hs
    have hx : x = A ∨ x = B := by simpa using hperm.mem_iff.mp (List.mem_cons_self x [y])
    have hA : A = x ∨ A = y := by simpa using hperm.mem_iff.mpr (List.mem_cons_self A [B])
    have hB : B = x ∨ B = y := by
      simpa using hperm.mem_iff.mpr (List.mem_cons_of_mem A (List.mem_singleton_self B))
    have hle : x.UniqueKey ≤ y.UniqueKey := by simpa using hs
    rcases hx with rfl | rfl
    · rcases hB with h | h
      · exact absurd h.symm hAB
      · subst h
        rw [if_pos (lt_of_le_of_ne hle hne)]
    · rcases hA with h | h
      · exact absurd h hAB
      · subst h
        rw [if_neg (not_lt.mpr hle)]
  · rw [hout] at hlen; simp at hlen

/-- C3 (amended): when the snapshot file is present and holds an empty snapshot
(an empty file, an empty JSON mapping, or `null`), New loads the empty snapshot
and sets the baseline flag.  The first cycle, in which the query returns
exactly the records A and B under their distinct keys, therefore broadcasts
once, the text listing A and B in key order; afterwards the in-memory snapshot
is the query result, the baseline flag is true, and saveSnapshot was called
with the query result. -/
theorem New_then_first_round (env : Env X) (cfg : Config) (w : World X) (fuel : Nat)
    (content : Bytes) (current : Snapshot) (A B : CourseInfo)
    (hread : (osReadFile env defaultSnapshotPath w).1 = .ok content)
    (hempty : content.length = 0 ∨ jsonUnmarshal env content = .ok (some []) ∨
      jsonUnmarshal env content = .ok none)
    (hq : ((New env cfg w).1.queryCurrentCourses env (New env cfg w).2).1 = .ok current)
    (hcur : current.Perm [(A.UniqueKey, A), (B.UniqueKey, B)])
    (hne : A.UniqueKey ≠ B.UniqueKey) :
    (New env cfg w).1.lastResult = [] ∧
    (New env cfg w).1.hasBaseline = true ∧
    broadcastsOf (eventsSince (New env cfg w).2
        ((New env cfg w).1.runRound env fuel (New env cfg w).2).2.2)
      = [notify.FormatCoursesMessage (if A.UniqueKey < B.UniqueKey then [A, B] else [B, A])] ∧
    ((New env cfg w).1.runRound env fuel (New env cfg w).2).2.1.lastResult = current ∧
    ((New env cfg w).1.runRound env fuel (New env cfg w).2).2.1.hasBaseline = true ∧
    savesOf (eventsSince (New env cfg w).2
        ((New env cfg w).1.runRound env fuel (New env cfg w).2).2.2) = [current] := by
  have hnew := New_of_loaded env cfg w []
    (loadSnapshot_of_empty env _ w content hread hempty)
  have hb : (New env cfg w).1.hasBaseline = true := by rw [hnew]
  have hl : (New env cfg w).1.lastResult = [] := by rw [hnew]
  have hadd := diffAdded_two (New env cfg w).1 current A B hl hcur hne
  have hnonempty : (New env cfg w).1.diffAdded current ≠ [] := by
    rw [hadd]; split <;> simp
  refine ⟨hl, hb, ?_, ?_, ?_, (runRound_diff_saves env fuel _ _ current hb hq).1⟩
  · rw [runRound_diff_broadcasts_of_ne env fuel _ _ current hb hq hnonempty, hadd]
  · rw [runRound_ok_diff env fuel _ _ current hb hq]
  · rw [runRound_ok_diff env fuel _ _ current hb hq]
    exact hb

/-- Witness of `New_then_first_round`: an empty snapshot file, one keyword, the
portal returns A and B. -/
theorem New_then_first_round_witness :
    (osReadFile (scriptedEnv portalAB none none 0 100) defaultSnapshotPath
      (worldWithSnapshotFile [])).1 = .ok [] ∧
    broadcastsOf (eventsSince (New (scriptedEnv portalAB none none 0 100) oneKeyword
          (worldWithSnapshotFile [])).2
        ((New (scriptedEnv portalAB none none 0 100) oneKeyword
          (worldWithSnapshotFile [])).1.runRound (scriptedEnv portalAB none none 0 100) 3
          (New (scriptedEnv portalAB none none 0 100) oneKeyword
            (worldWithSnapshotFile [])).2).2.2)
      = [notify.FormatCoursesMessage
          (if recA.UniqueKey < recB.UniqueKey then [recA, recB] else [recB, recA])] :=
  have h := New_then_first_round (scriptedEnv portalAB none none 0 100) oneKeyword
    (worldWithSnapshotFile []) 3 [] [("A_1", recA), ("B_1", recB)] recA recB
    (by decide) (Or.inl rfl) (by decide) (List.Perm.refl _) (by decide)
  ⟨by decide, h.2.2.1⟩

/-- C3 as stated fails: with an empty snapshot file on disk (and likewise with
a file holding an empty JSON mapping), New sets the baseline flag, and the
first cycle, in which the portal returns A and B for the only keyword,
broadcasts a message listing A and B. -/
theorem first_run_counterexample :
    (osReadFile (scriptedEnv portalAB none none 0 100) defaultSnapshotPath
      (worldWithSnapshotFile [])).1 = .ok [] ∧
    (New (scriptedEnv portalAB none none 0 100) oneKeyword
      (worldWithSnapshotFile [])).1.hasBaseline = true ∧
    broadcastsOf (eventsSince (worldWithSnapshotFile [])
        ((New (scriptedEnv portalAB none none 0 100) oneKeyword
          (worldWithSnapshotFile [])).1.runRound (scriptedEnv portalAB none none 0 100) 3
          (New (scriptedEnv portalAB none none 0 100) oneKeyword
            (worldWithSnapshotFile [])).2).2.2)
      = [notify.FormatCoursesMessage [recA, recB]] ∧
    jsonUnmarshal (scriptedEnv portalAB none none 0 100) [0x7b, 0x7d] = .ok (some []) ∧
    broadcastsOf (eventsSince (worldWithSnapshotFile [0x7b, 0x7d])
        ((New (scriptedEnv portalAB none none 0 100) oneKeyword
          (worldWithSnapshotFile [0x7b, 0x7d])).1.runRound
          (scriptedEnv portalAB none none 0 100) 3
          (New (scriptedEnv portalAB none none 0 100) oneKeyword
            (worldWithSnapshotFile [0x7b, 0x7d])).2).2.2)
      = [notify.FormatCoursesMessage [recA, recB]] := by
  refine ⟨by decide, by decide, by decide, by decide, by decide⟩

end Round

/-! ## The filter on blank keys -/

section Filter

variable {X : Type}

theorem query_ok_merge (env : Env X) (m : Monitor) (w : World X) (current : Snapshot)
    (hq : (m.queryCurrentCourses env w).1 = .ok current) :
    current = queryCurrentCourses.merge []
      (scrapedOf (eventsSince w (m.queryCurrentCourses env w).2)) ∧
    searchesOf (eventsSince w (m.queryCurrentCourses env w).2) = m.config.CourseList := by
  obtain ⟨d, hd, hspec⟩ := query_events env m w
  rw [eventsSince_of_append w _ d hd]
  rw [hq] at hspec
  exact ⟨hspec.2.2.1, hspec.2.2.2⟩

/-- C6: in a successful query, a scraped record is absent from the merged
result (no entry under its key) if and only if both its identifiers are blank
after trimming, that is, its `UniqueKey()` is "_".  Every entry of the merged
result is a scraped record stored under its own key, never a blank one; a
record with a non-blank identifier that no later scraped record shares the key
of is stored itself; and no blank record appears in any output of diffAdded on
the merged result. -/
theorem query_filters_blank_keys (env : Env X) (m : Monitor) (w : World X) (current : Snapshot)
    (hq : (m.queryCurrentCourses env w).1 = .ok current) :
    (∀ c : CourseInfo, c.UniqueKey = "_" ↔ BothBlank c) ∧
    (∀ r ∈ scrapedOf (eventsSince w (m.queryCurrentCourses env w).2),
      r.UniqueKey ∉ GoMap.keys current ↔ BothBlank r) ∧
    (∀ k r, GoMap.get? current k = some r →
      r ∈ scrapedOf (eventsSince w (m.queryCurrentCourses env w).2) ∧
      r.UniqueKey = k ∧ ¬ BothBlank r) ∧
    (∀ pre r post, scrapedOf (eventsSince w (m.queryCurrentCourses env w).2) = pre ++ r :: post →
      ¬ BothBlank r → (∀ c ∈ post, c.UniqueKey ≠ r.UniqueKey) →
      GoMap.get? current r.UniqueKey = some r) ∧
    (∀ (m' : Monitor) (r : CourseInfo), r ∈ m'.diffAdded current → ¬ BothBlank r) := by
  have hm := (query_ok_merge env m w current hq).1
  have hget : ∀ k r, GoMap.get? current k = some r →
      r ∈ scrapedOf (eventsSince w (m.queryCurrentCourses env w).2) ∧
      r.UniqueKey = k ∧ ¬ BothBlank r := by
    intro k r hkr
    rw [hm] at hkr
    have h := merge_empty_get?_some _ k r hkr
    refine ⟨h.1, h.2.1, ?_⟩
    rw [← uniqueKey_eq_underscore_iff, h.2.1]
    exact h.2.2
  refine ⟨uniqueKey_eq_underscore_iff, ?_, hget, ?_, ?_⟩
  · intro r hr
    rw [← uniqueKey_eq_underscore_iff]
    have h := merge_empty_mem_keys _ r hr
    rw [← hm] at h
    rw [h]
    simp
  · intro pre r post hsplit hnb hpost
    have hk : r.UniqueKey ≠ "_" := fun h => hnb ((uniqueKey_eq_underscore_iff r).mp h)
    have h := merge_empty_keeps_last pre post r hk hpost
    rw [← hsplit, ← hm] at h
    exact h
  · intro m' r hr
    obtain ⟨k, hin, _⟩ := (mem_diffAdded m' current r).mp hr
    have hwf : GoMap.WF current := by
      rw [hm]
      exact merge_WF [] _ (by simp [GoMap.WF, GoMap.keys])
    exact (hget k r (GoMap.get?_of_mem current hwf k r hin)).2.2

/-- Witness of `query_filters_blank_keys`: the portal returns A, a record with
blank identifiers, and B; the merged result holds A and B only. -/
theorem query_filters_blank_keys_witness :
    ((monitorWith [] true).queryCurrentCourses
      (scriptedEnv portalWithBlank none none 0 100) emptyWorld).1
        = .ok [("A_1", recA), ("B_1", recB)] ∧
    scrapedOf (eventsSince emptyWorld ((monitorWith [] true).queryCurrentCourses
      (scriptedEnv portalWithBlank none none 0 100) emptyWorld).2) = [recA, recBlank, recB] ∧
    BothBlank recBlank ∧
    (recBlank.UniqueKey ∉ GoMap.keys [("A_1", recA), ("B_1", recB)] ↔ BothBlank recBlank) :=
  have h := query_filters_blank_keys (scriptedEnv portalWithBlank none none 0 100)
    (monitorWith [] true) emptyWorld [("A_1", recA), ("B_1", recB)] (by decide)
  ⟨by decide, by decide, by decide, h.2.1 recBlank (by decide)⟩

end Filter

/-! ## Session recovery -/

section Recovery

variable {X : Type}

theorem attempt_spec (env : Env X) (m : Monitor) (w : World X) :
    ∃ s, (reloginWithRetry.attempt env m w).2.2.trace = w.trace ++ s ∧
      (((reloginWithRetry.attempt env m w).1 = true ∧
          (∃ roundID, s = [.login none, .getRound (.ok roundID), .enterRound roundID none,
            .publishClient (reloginWithRetry.attempt env m w).2.1.client]) ∧
          (reloginWithRetry.attempt env m w).2.1
            = { m with client := (reloginWithRetry.attempt env m w).2.1.client }) ∨
       ((reloginWithRetry.attempt env m w).1 = false ∧ FailedSteps s ∧
          (reloginWithRetry.attempt env m w).2.1 = m)) := by
  unfold reloginWithRetry.attempt
  cases hl : env.Login m.config.Username m.config.Password w.ext with
  | mk lr x1 =>
    cases lr with
    | some err =>
      refine ⟨[.login (some err)], ?_, Or.inr ?_⟩
      · simp [casLogin, hl]
      · simp [casLogin, hl, FailedSteps.login]
    | none =>
      simp only [casLogin, hl, emit_ext]
      cases hg : env.GetSelectionRoundID (env.GetClient x1) x1 with
      | mk gr x2 =>
        cases gr with
        | error err =>
          refine ⟨[.login none, .getRound (.error err)], ?_, Or.inr ?_⟩
          · simp [GetSelectionRoundID, hg]
          · simp [GetSelectionRoundID, hg, FailedSteps.getRound]
        | ok roundID =>
          simp only [GetSelectionRoundID, hg, emit_ext]
          cases he : env.EnterSelectionRound (env.GetClient x2) roundID x2 with
          | mk er x3 =>
            cases er with
            | some err =>
              refine ⟨[.login none, .getRound (.ok roundID), .enterRound roundID (some err)],
                ?_, Or.inr ?_⟩
              · simp [EnterSelectionRound, he]
              · simp [EnterSelectionRound, he, FailedSteps.enterRound]
            | none =>
              refine ⟨[.login none, .getRound (.ok roundID), .enterRound roundID none,
                .publishClient (env.GetClient x3)], ?_, Or.inl ?_⟩
              · simp [EnterSelectionRound, he]
              · simp [EnterSelectionRound, he]

theorem relogin_loop_spec (env : Env X) (fuel : Nat) (b : Int) (m : Monitor) (w : World X) :
    ∃ d c, (reloginWithRetry.loop env fuel b m w).2.2.trace = w.trace ++ d ∧
      RecoveryRun b d (reloginWithRetry.loop env fuel b m w).1 c ∧
      (∀ x, c = some x → (reloginWithRetry.loop env fuel b m w).2.1 = { m with client := x }) ∧
      (c = none → (reloginWithRetry.loop env fuel b m w).2.1 = m) := by
  induction fuel generalizing b m w with
  | zero =>
    exact ⟨[], none, by simp [reloginWithRetry.loop], RecoveryRun.running b, by simp,
      fun _ => rfl⟩
  | succ fuel ih =>
    unfold reloginWithRetry.loop
    have hct := ctxDone_trace env w
    rcases hc : ctxDone env w with ⟨done, w1⟩
    rw [hc] at hct
    simp only at hct
    cases done with
    | true =>
      exact ⟨[.ctxCheck true], none, hct, RecoveryRun.cancelledAtTop b, by simp, fun _ => rfl⟩
    | false =>
      simp only
      obtain ⟨s, hs, hcase⟩ := attempt_spec env m w1
      rcases ha : reloginWithRetry.attempt env m w1 with ⟨ok, m2, w2⟩
      rw [ha] at hs hcase
      simp only at hs hcase
      rcases hcase with ⟨hok, ⟨roundID, hsteps⟩, hm2⟩ | ⟨hok, hfail, hm2⟩
      · subst hok
        refine ⟨.ctxCheck false :: s, some m2.client, ?_, ?_, ?_, by simp⟩
        · simp [hs, hct]
        · rw [hsteps]
          exact RecoveryRun.succeeded b roundID m2.client
        · intro x hx
          cases hx
          exact hm2
      · subst hok
        subst hm2
        simp only
        have htt := timerWait_trace env b w2
        rcases ht : timerWait env b w2 with ⟨fired, w3⟩
        rw [ht] at htt
        simp only at htt
        cases fired with
        | false =>
          refine ⟨.ctxCheck false :: s ++ [.wait b false], none, ?_,
            RecoveryRun.cancelledInWait b s hfail, by simp, fun _ => rfl⟩
          simp [htt, hs, hct]
        | true =>
          simp only
          obtain ⟨d, c, hd, hrun, hsome, hnone⟩ := ih (nextBackoff b) m2 w3
          refine ⟨.ctxCheck false :: s ++ .wait b true :: d, c, ?_,
            RecoveryRun.retried b s d _ c hfail hrun, hsome, hnone⟩
          simp [hd, htt, hs, hct]

theorem relogin_spec (env : Env X) (fuel : Nat) (m : Monitor) (w : World X) :
    ∃ d c, (m.reloginWithRetry env fuel w).2.2.trace = w.trace ++ .relogin :: d ∧
      RecoveryRun (2 * Second) d (m.reloginWithRetry env fuel w).1 c ∧
      (∀ x, c = some x → (m.reloginWithRetry env fuel w).2.1 = { m with client := x }) ∧
      (c = none → (m.reloginWithRetry env fuel w).2.1 = m) := by
  unfold Monitor.reloginWithRetry
  obtain ⟨d, c, hd, hrun, hsome, hnone⟩ :=
    relogin_loop_spec env fuel (2 * Second) m (w.emit .relogin)
  refine ⟨d, c, ?_, hrun, hsome, hnone⟩
  rw [hd]
  simp

theorem FailedSteps_recovery (s : List Event) (h : FailedSteps s) :
    ∀ e ∈ s, e.isRecoveryEvent = true ∧ e.waitDuration = none := by
  cases h <;> simp [Event.isRecoveryEvent, Event.waitDuration]

theorem RecoveryRun_events (b : Int) (d : List Event) (out : Option (Option GoError))
    (c : Option Nat) (h : RecoveryRun b d out c) : ∀ e ∈ d, e.isRecoveryEvent = true := by
  induction h with
  | running b => simp
  | cancelledAtTop b => simp [Event.isRecoveryEvent]
  | succeeded b roundID client => simp [Event.isRecoveryEvent]
  | cancelledInWait b steps hf =>
    intro e he
    simp only [List.mem_cons, List.mem_append, List.not_mem_nil, or_false] at he
    rcases he with (rfl | he) | rfl
    · rfl
    · exact (FailedSteps_recovery steps hf e he).1
    · rfl
  | retried b steps rest out c hf _ ih =>
    intro e he
    simp only [List.mem_cons, List.mem_append] at he
    rcases he with (rfl | he) | rfl | he
    · rfl
    · exact (FailedSteps_recovery steps hf e he).1
    · rfl
    · exact ih e he

theorem relogin_preserves (env : Env X) (fuel : Nat) (m : Monitor) (w : World X) :
    (m.reloginWithRetry env fuel w).2.1.lastResult = m.lastResult ∧
    (m.reloginWithRetry env fuel w).2.1.hasBaseline = m.hasBaseline := by
  obtain ⟨d, c, _, _, hsome, hnone⟩ := relogin_spec env fuel m w
  cases c with
  | none => rw [hnone rfl]; exact ⟨rfl, rfl⟩
  | some x => rw [hsome x rfl]; exact ⟨rfl, rfl⟩

end Recovery

/-! ## A cycle whose query fails -/

theorem split_unique {α : Type} (p : α → Bool) (l1 l2 t1 t2 : List α) (a b : α)
    (h : l1 ++ a :: l2 = t1 ++ b :: t2) (hl1 : ∀ x ∈ l1, p x = false)
    (hl2 : ∀ x ∈ l2, p x = false) (hb : p b = true) :
    l1 = t1 ∧ a = b ∧ l2 = t2 := by
  induction l1 generalizing t1 with
  | nil =>
    cases t1 with
    | nil =>
      simp only [List.nil_append, List.cons.injEq] at h
      exact ⟨rfl, h.1, h.2⟩
    | cons x t1' =>
      simp only [List.nil_append, List.cons_append, List.cons.injEq] at h
      have hbmem : b ∈ l2 := by rw [h.2]; simp
      rw [hl2 b hbmem] at hb
      cases hb
  | cons y l1' ih =>
    cases t1 with
    | nil =>
      simp only [List.nil_append, List.cons_append, List.cons.injEq] at h
      have := hl1 y (List.mem_cons_self _ _)
      rw [h.1, hb] at this
      cases this
    | cons x t1' =>
      simp only [List.cons_append, List.cons.injEq] at h
      obtain ⟨h1, h2, h3⟩ := ih t1' h.2 (fun z hz => hl1 z (List.mem_cons_of_mem _ hz))
      exact ⟨by rw [h.1, h1], h2, h3⟩

theorem no_failed_search_of_recovery (d : List Event)
    (h : ∀ e ∈ d, e.isRecoveryEvent = true) :
    (∀ e ∈ d, e.isFailedSearch = false) ∧ searchesOf d = [] ∧ broadcastsOf d = [] ∧
      savesOf d = [] := by
  refine ⟨?_, ?_, ?_, ?_⟩
  · intro e he
    have := h e he
    cases e <;> simp_all [Event.isRecoveryEvent, Event.isFailedSearch]
  · unfold searchesOf
    rw [List.filterMap_eq_nil_iff]
    intro e he
    have := h e he
    cases e <;> simp_all [Event.isRecoveryEvent, Event.searchKeyword]
  · unfold broadcastsOf
    rw [List.filterMap_eq_nil_iff]
    intro e he
    have := h e he
    cases e <;> simp_all [Event.isRecoveryEvent, Event.broadcastText]
  · unfold savesOf
    rw [List.filterMap_eq_nil_iff]
    intro e he
    have := h e he
    cases e <;> simp_all [Event.isRecoveryEvent, Event.savedData]

theorem isSessionExpired_wrap (msg : String) (err : GoError) :
    IsSessionExpired (.wrap msg err) = IsSessionExpired err := rfl

section FailedCycle

variable {X : Type}

theorem runRound_error_events (env : Env X) (fuel : Nat) (m : Monitor) (w : World X)
    (err : GoError) (hq : (m.queryCurrentCourses env w).1 = .error err) :
    ∃ d dr, QuerySpec m.config.CourseList [] (.error err) d ∧
      eventsSince w (m.runRound env fuel w).2.2 = d ++ dr ∧
      (∀ e ∈ dr, e.isRecoveryEvent = true) ∧
      (IsSessionExpired err = true → ∃ d', dr = .relogin :: d') ∧
      (IsSessionExpired err = false → dr = []) ∧
      (m.runRound env fuel w).2.1.lastResult = m.lastResult ∧
      (m.runRound env fuel w).2.1.hasBaseline = m.hasBaseline := by
  obtain ⟨d, hd, hspec⟩ := query_events env m w
  rw [hq] at hspec
  unfold Monitor.runRound
  split
  · rename_i err' w1 h
    have hw1 : w1 = (m.queryCurrentCourses env w).2 := by rw [h]
    have herr : err' = err := by
      rw [h] at hq
      simpa using hq
    subst herr
    by_cases hexp : IsSessionExpired err' = true
    · rw [if_pos hexp]
      obtain ⟨d', c, hd', hrun, hsome, hnone⟩ := relogin_spec env fuel m w1
      have hpres := relogin_preserves env fuel m w1
      refine ⟨d, .relogin :: d', hspec, ?_, ?_, fun _ => ⟨d', rfl⟩, ?_, hpres.1, hpres.2⟩
      · apply eventsSince_of_append
        simp only
        rw [hd', hw1, hd, List.append_assoc]
      · intro e he
        rcases List.mem_cons.mp he with rfl | he
        · rfl
        · exact RecoveryRun_events _ _ _ _ hrun e he
      · intro hne
        rw [hexp] at hne
        cases hne
    · rw [if_neg hexp]
      refine ⟨d, [], hspec, ?_, by simp, ?_, fun _ => rfl, rfl, rfl⟩
      · apply eventsSince_of_append
        simp only
        rw [hw1, hd, List.append_nil]
      · intro h1
        exact absurd h1 hexp
  · rename_i cur w1 h
    rw [h] at hq
    cases hq

theorem failed_search_absent (d : List Event) (h : ∀ x ∈ d, x.isFailedSearch = false)
    (t1 t2 : List Event) (kw : String) (e : GoError)
    (heq : d = t1 ++ .search kw (.error e) :: t2) : False := by
  have := h (.search kw (.error e)) (by rw [heq]; simp)
  simp [Event.isFailedSearch] at this

/-- C5: if in a cycle the search for a keyword fails with error `e` (whatever
`e` is), then nothing is searched after it, and the keywords searched so far
are an initial stretch of the keyword list; the cycle broadcasts nothing, never
calls saveSnapshot, and leaves the in-memory snapshot and the baseline flag as
they were; the query returns `e` wrapped, which IsSessionExpired classifies as
it classifies `e`; and reloginWithRetry is entered if and only if
IsSessionExpired holds of `e`, otherwise the cycle ends with the failed
search. -/
theorem runRound_failed_search (env : Env X) (fuel : Nat) (m : Monitor) (w : World X)
    (t1 t2 : List Event) (kw : String) (e : GoError)
    (h : eventsSince w (m.runRound env fuel w).2.2 = t1 ++ .search kw (.error e) :: t2) :
    searchesOf t2 = [] ∧
    (∃ rest, m.config.CourseList = searchesOf t1 ++ kw :: rest) ∧
    broadcastsOf (eventsSince w (m.runRound env fuel w).2.2) = [] ∧
    savesOf (eventsSince w (m.runRound env fuel w).2.2) = [] ∧
    (m.runRound env fuel w).2.1.lastResult = m.lastResult ∧
    (m.runRound env fuel w).2.1.hasBaseline = m.hasBaseline ∧
    (m.queryCurrentCourses env w).1 = .error (.wrap ("课程[" ++ kw ++ "]搜索失败: ") e) ∧
    IsSessionExpired (.wrap ("课程[" ++ kw ++ "]搜索失败: ") e) = IsSessionExpired e ∧
    ((∃ x ∈ t2, x.isRelogin = true) ↔ IsSessionExpired e = true) ∧
    (IsSessionExpired e = false → t2 = []) := by
  cases hq : (m.queryCurrentCourses env w).1 with
  | ok current =>
    exfalso
    cases hb : m.hasBaseline with
    | false =>
      obtain ⟨d, hd, hev⟩ := runRound_baseline_events env fuel m w current hb hq
      rw [hev] at h
      refine failed_search_absent (d ++ [.saveSnapshot current]) ?_ t1 t2 kw e h
      intro x hx
      rcases List.mem_append.mp hx with hx | hx
      · exact hd.2 x hx
      · simp at hx; subst hx; rfl
    | true =>
      obtain ⟨d, hd, hev⟩ := runRound_diff_events env fuel m w current hb hq
      rw [hev] at h
      refine failed_search_absent _ ?_ t1 t2 kw e h
      intro x hx
      rcases List.mem_append.mp hx with hx | hx
      · rcases List.mem_append.mp hx with hx | hx
        · exact hd.2 x hx
        · split at hx
          · simp at hx; subst hx; rfl
          · simp at hx
      · simp at hx; subst hx; rfl
  | error err =>
    obtain ⟨d, dr, hspec, hev, hrec, hexp, hnexp, hlast, hbase⟩ :=
      runRound_error_events env fuel m w err hq
    have hdr := no_failed_search_of_recovery dr hrec
    obtain ⟨hqe, hcase⟩ := hspec
    simp only at hcase
    rcases hcase with ⟨d0, kw', e0, rest, hd0, hf0, herr, hk⟩ | ⟨herr, hf⟩
    · have hsplit : d0 ++ .search kw' (.error e0) :: dr = t1 ++ .search kw (.error e) :: t2 := by
        rw [← h, hev, hd0]; simp
      obtain ⟨h1, h2, h3⟩ := split_unique Event.isFailedSearch d0 dr t1 t2 _ _ hsplit hf0
        hdr.1 rfl
      simp only [Event.search.injEq, Except.error.injEq] at h2
      obtain ⟨hkw, he0⟩ := h2
      subst h1 h3 hkw he0
      have hbq := broadcastsOf_query d hqe
      have hsq := savesOf_query d hqe
      refine ⟨hdr.2.1, ⟨rest, hk⟩, ?_, ?_, hlast, hbase, herr ▸ rfl, rfl, ?_, ?_⟩
      · rw [hev, broadcastsOf_append, hbq, hdr.2.2.1]; rfl
      · rw [hev, savesOf_append, hsq, hdr.2.2.2]; rfl
      · rw [herr, isSessionExpired_wrap] at hexp hnexp
        constructor
        · rintro ⟨x, hx, hrel⟩
          by_contra hne
          have : IsSessionExpired e0 = false := by simpa using hne
          rw [hnexp this] at hx
          simp at hx
        · intro hx
          obtain ⟨d', hd'⟩ := hexp hx
          exact ⟨.relogin, by rw [hd']; simp, rfl⟩
      · rw [herr, isSessionExpired_wrap] at hnexp
        exact hnexp
    · exfalso
      have hnot : IsSessionExpired err = false := by rw [herr]; rfl
      rw [hnexp hnot, List.append_nil] at hev
      rw [hev] at h
      exact failed_search_absent d hf t1 t2 kw e h

/-- Witness of `runRound_failed_search`: three keywords.  In the first run the
session has expired when the second keyword is searched, and recovery succeeds
at the first attempt; in the second run the second search fails for another
reason, and the cycle ends there. -/
theorem runRound_failed_search_witness :
    (eventsSince emptyWorld ((monitorThree [("Z_9", recordOf "Z" "9")] true).runRound
        (scriptedEnv portalExpiresOnK2 none none 0 100) 3 emptyWorld).2.2
      = [.ctxCheck false, .search "k1" (.ok [recA]), .ctxCheck false] ++
        .search "k2" (.error (.wrap ": 搜索接口返回登录页[xsxkKnjxk]" ErrSessionExpired)) ::
        [.relogin, .ctxCheck false, .login none, .getRound (.ok "round-1"),
          .enterRound "round-1" none, .publishClient 17] ∧
      ((monitorThree [("Z_9", recordOf "Z" "9")] true).runRound
          (scriptedEnv portalExpiresOnK2 none none 0 100) 3 emptyWorld).2.1.lastResult
        = [("Z_9", recordOf "Z" "9")] ∧
      IsSessionExpired (.wrap ": 搜索接口返回登录页[xsxkKnjxk]" ErrSessionExpired) = true) ∧
    (eventsSince emptyWorld ((monitorThree [("Z_9", recordOf "Z" "9")] true).runRound
        (scriptedEnv portalBreaksOnK2 none none 0 100) 3 emptyWorld).2.2
      = [.ctxCheck false, .search "k1" (.ok [recA]), .ctxCheck false] ++
        .search "k2" (.error (.other "搜索接口响应异常[xsxkKnjxk]: 500")) :: [] ∧
      ((monitorThree [("Z_9", recordOf "Z" "9")] true).runRound
          (scriptedEnv portalBreaksOnK2 none none 0 100) 3 emptyWorld).2.1.lastResult
        = [("Z_9", recordOf "Z" "9")] ∧
      IsSessionExpired (.other "搜索接口响应异常[xsxkKnjxk]: 500") = false) :=
  have h := runRound_failed_search (scriptedEnv portalExpiresOnK2 none none 0 100) 3
    (monitorThree [("Z_9", recordOf "Z" "9")] true) emptyWorld
    [.ctxCheck false, .search "k1" (.ok [recA]), .ctxCheck false]
    [.relogin, .ctxCheck false, .login none, .getRound (.ok "round-1"),
      .enterRound "round-1" none, .publishClient 17]
    "k2" (.wrap ": 搜索接口返回登录页[xsxkKnjxk]" ErrSessionExpired) (by decide)
  have h' := runRound_failed_search (scriptedEnv portalBreaksOnK2 none none 0 100) 3
    (monitorThree [("Z_9", recordOf "Z" "9")] true) emptyWorld
    [.ctxCheck false, .search "k1" (.ok [recA]), .ctxCheck false] []
    "k2" (.other "搜索接口响应异常[xsxkKnjxk]: 500") (by decide)
  ⟨⟨by decide, h.2.2.2.2.1, by decide⟩, ⟨by decide, h'.2.2.2.2.1, by decide⟩⟩

end FailedCycle

/-! ## The waits of session recovery -/

theorem nextBackoff_closed (n : Nat) :
    nextBackoff (min ((2 : Int) ^ (n + 1)) 60 * Second)
      = min ((2 : Int) ^ (n + 2)) 60 * Second := by
  have hp : (0 : Int) < 2 ^ (n + 1) := by positivity
  have h2 : (2 : Int) ^ (n + 2) = 2 ^ (n + 1) * 2 := by ring
  rw [h2]
  generalize (2 : Int) ^ (n + 1) = p at hp
  unfold nextBackoff Minute Second Millisecond
  simp only [min_def]
  split_ifs <;> omega

theorem backoff_bounds (n : Nat) :
    nextBackoff^[n] (2 * Second) = min ((2 : Int) ^ (n + 1)) 60 * Second := by
  induction n with
  | zero => simp [Second, Millisecond]
  | succ n ih => rw [Function.iterate_succ_apply', ih, nextBackoff_closed]

theorem waitsOf_append (a b : List Event) : waitsOf (a ++ b) = waitsOf a ++ waitsOf b := by
  simp [waitsOf]

theorem waitsOf_failed (s : List Event) (h : FailedSteps s) : waitsOf s = [] := by
  cases h <;> rfl

theorem RecoveryRun_waits (b : Int) (d : List Event) (out : Option (Option GoError))
    (c : Option Nat) (h : RecoveryRun b d out c) :
    waitsOf d = (List.range (waitsOf d).length).map (fun i => nextBackoff^[i] b) := by
  induction h with
  | running b => rfl
  | cancelledAtTop b => rfl
  | succeeded b roundID client => rfl
  | cancelledInWait b steps hf =>
    have : waitsOf (.ctxCheck false :: steps ++ [.wait b false]) = [b] := by
      rw [waitsOf_append]
      have h1 : waitsOf (.ctxCheck false :: steps) = waitsOf steps := rfl
      rw [h1, waitsOf_failed steps hf]
      rfl
    rw [this]
    rfl
  | retried b steps rest out c hf _ ih =>
    have : waitsOf (.ctxCheck false :: steps ++ .wait b true :: rest) = b :: waitsOf rest := by
      rw [waitsOf_append]
      have h1 : waitsOf (.ctxCheck false :: steps) = waitsOf steps := rfl
      rw [h1, waitsOf_failed steps hf]
      rfl
    rw [this]
    simp only [List.length_cons, List.range_succ_eq_map, List.map_cons, List.map_map,
      Function.iterate_zero, id_eq]
    congr 1

section RecoveryClaims

variable {X : Type}

theorem relogin_events (env : Env X) (fuel : Nat) (m : Monitor) (w : World X) :
    ∃ d c, eventsSince w (m.reloginWithRetry env fuel w).2.2 = .relogin :: d ∧
      RecoveryRun (2 * Second) d (m.reloginWithRetry env fuel w).1 c ∧
      (∀ x, c = some x → (m.reloginWithRetry env fuel w).2.1 = { m with client := x }) ∧
      (c = none → (m.reloginWithRetry env fuel w).2.1 = m) := by
  obtain ⟨d, c, hd, hrest⟩ := relogin_spec env fuel m w
  exact ⟨d, c, eventsSince_of_append w _ _ hd, hrest⟩

theorem sorted_map_range (f : Nat → Int) (hf : ∀ i j, i ≤ j → f i ≤ f j) (k : Nat) :
    ((List.range k).map f).Sorted (· ≤ ·) := by
  rw [List.Sorted, List.pairwise_map]
  exact List.Pairwise.imp (fun h => hf _ _ (Nat.le_of_lt h)) (List.pairwise_lt_range k)

theorem capped_mono (i j : Nat) (h : i ≤ j) :
    min ((2 : Int) ^ (i + 1)) 60 * Second ≤ min ((2 : Int) ^ (j + 1)) 60 * Second := by
  have hs : (0 : Int) ≤ Second := by decide
  apply mul_le_mul_of_nonneg_right _ hs
  apply min_le_min _ le_rfl
  exact pow_le_pow_right₀ (by norm_num) (by omega)

end RecoveryClaims

/-! ## The snapshot store -/

theorem ofKey_tag (f : Field) : Field.ofKey f.tag = some f := by
  cases f <;> rfl

theorem fromJSON_toJSON (c : CourseInfo) : CourseInfo.fromJSON c.toJSON = .ok c := by
  obtain ⟨kch, kcmc, skls, syrs, jx0404id, jx02id, sksj, ⟨xkrs, hx⟩, ⟨pkrs, hp⟩, dwmc, ktmc,
    skdd⟩ := c
  simp only [CourseInfo.toJSON, CourseInfo.fromJSON, Field.all, List.map,
    CourseInfo.decodeFields, ofKey_tag, CourseInfo.getField, CourseInfo.setField,
    CourseInfo.zero, dif_pos hx, dif_pos hp]

theorem fromJSON_int_range :
    CourseInfo.fromJSON (.obj [("xkrs", .int 9223372036854775807)])
      = .ok { CourseInfo.zero with Xkrs := ⟨9223372036854775807, by decide⟩ } ∧
    CourseInfo.fromJSON (.obj [("xkrs", .int 9223372036854775808)])
      = .error (.other "json: cannot unmarshal number into field xkrs of type int") ∧
    CourseInfo.fromJSON (.obj [("pkrs", .int (-9223372036854775809))])
      = .error (.other "json: cannot unmarshal number into field pkrs of type int") := by
  decide

theorem set_of_not_mem {V : Type} (m : GoMap V) (k : String) (v : V) (h : k ∉ GoMap.keys m) :
    GoMap.set m k v = m ++ [(k, v)] := by
  induction m with
  | nil => rfl
  | cons e rest ih =>
    obtain ⟨k0, v0⟩ := e
    have hne : ¬ k0 = k := by
      intro hk
      apply h
      simp [GoMap.keys, hk]
    have hrest : k ∉ GoMap.keys rest := by
      intro hk
      apply h
      simp only [GoMap.keys, List.map_cons, List.mem_cons]
      exact Or.inr hk
    simp [GoMap.set, hne, ih hrest]

theorem decodeEntries_encoded (L acc : Snapshot) (h : GoMap.WF (acc ++ L)) :
    Snapshot.decodeEntries (L.map (fun entry => (entry.1, entry.2.toJSON))) acc
      = .ok (acc ++ L) := by
  induction L generalizing acc with
  | nil => simp [Snapshot.decodeEntries]
  | cons e rest ih =>
    obtain ⟨k, c⟩ := e
    have hk : k ∉ GoMap.keys acc := by
      intro hin
      unfold GoMap.WF GoMap.keys at h
      rw [List.map_append, List.nodup_append] at h
      exact h.2.2 hin (by simp)
    simp only [List.map_cons, Snapshot.decodeEntries, fromJSON_toJSON]
    rw [set_of_not_mem acc k c hk, ih]
    · simp
    · simpa using h

theorem sorted_entries_perm (S : Snapshot) :
    (sortSlice (fun a b : String × CourseInfo => stringLess a.1 b.1) S).Perm S :=
  sortSlice_perm Prod.fst S

theorem fromJSON_toJSON_snapshot (S : Snapshot) (h : GoMap.WF S) :
    Snapshot.fromJSON (Snapshot.toJSON S)
      = .ok (some (sortSlice (fun a b : String × CourseInfo => stringLess a.1 b.1) S)) := by
  unfold Snapshot.toJSON Snapshot.fromJSON
  simp only
  have hwf : GoMap.WF ([] ++ sortSlice (fun a b : String × CourseInfo => stringLess a.1 b.1) S) := by
    unfold GoMap.WF GoMap.keys
    rw [List.nil_append, ((sorted_entries_perm S).map Prod.fst).nodup_iff]
    exact h
  rw [decodeEntries_encoded _ [] hwf]
  rfl

theorem get?_of_perm {V : Type} (a b : GoMap V) (hp : a.Perm b) (hb : GoMap.WF b) (k : String) :
    GoMap.get? a k = GoMap.get? b k := by
  have ha : GoMap.WF a := by
    unfold GoMap.WF GoMap.keys at *
    rw [(hp.map Prod.fst).nodup_iff]
    exact hb
  cases hg : GoMap.get? b k with
  | some v =>
    exact GoMap.get?_of_mem a ha k v (hp.mem_iff.mpr (GoMap.mem_of_get? b k v hg))
  | none =>
    rw [GoMap.get?_eq_none_iff] at hg ⊢
    intro hin
    apply hg
    unfold GoMap.keys at *
    exact ((hp.map Prod.fst).mem_iff).mp hin

theorem get?_erase_of_ne {V : Type} (m : GoMap V) (p k : String) (h : p ≠ k) :
    GoMap.get? (GoMap.erase m p) k = GoMap.get? m k := by
  induction m with
  | nil => rfl
  | cons e rest ih =>
    obtain ⟨k0, v0⟩ := e
    by_cases h0 : k0 = p
    · subst h0
      simp [GoMap.erase, GoMap.get?, h]
    · by_cases h1 : k0 = k
      · subst h1
        simp [GoMap.erase, GoMap.get?, h0]
      · simp [GoMap.erase, GoMap.get?, h0, h1, ih]

theorem tmpPath_ne (path : String) : path ++ ".tmp" ≠ path := by
  intro h
  have := congrArg String.length h
  simp only [String.length_append, add_right_eq_self] at this
  exact absurd this (by decide)

section StoreProofs

variable {X : Type}

@[simp] theorem osFault_files (env : Env X) (c : OsCall) (w : World X) :
    (osFault env c w).2.files = w.files := rfl

theorem osFault_files_of (env : Env X) (c : OsCall) (w w' : World X) (r : Option GoError)
    (h : osFault env c w = (r, w')) : w'.files = w.files := by
  have hf := osFault_files env c w
  rw [h] at hf
  exact hf

theorem osWriteFile_ok (env : Env X) (path : String) (content : Bytes) (w w' : World X)
    (h : osWriteFile env path content w = (none, w')) :
    w'.files = w.files.set path content := by
  unfold osWriteFile at h
  split at h
  · simp at h
  · rename_i w1 hf
    simp only [Prod.mk.injEq, true_and] at h
    rw [← h]
    simp [osFault_files_of env _ _ _ _ hf]

theorem osRename_ok (env : Env X) (a b : String) (w w' : World X)
    (h : osRename env a b w = (none, w')) :
    ∃ content, w.files.get? a = some content ∧
      w'.files = (w.files.erase a).set b content := by
  unfold osRename at h
  split at h
  · simp at h
  · rename_i w1 hf
    have hfiles := osFault_files_of env _ _ _ _ hf
    split at h
    · simp at h
    · rename_i content hg
      simp only [Prod.mk.injEq, true_and] at h
      rw [hfiles] at hg
      refine ⟨content, hg, ?_⟩
      rw [← h]
      simp [hfiles]

theorem osRename_err (env : Env X) (a b : String) (w w' : World X) (err : GoError)
    (h : osRename env a b w = (some err, w')) : w'.files = w.files := by
  unfold osRename at h
  split at h
  · rename_i w1 hf
    simp only [Prod.mk.injEq] at h
    rw [← h.2]
    exact osFault_files_of env _ _ _ _ hf
  · rename_i w1 hf
    have hfiles := osFault_files_of env _ _ _ _ hf
    split at h
    · simp only [Prod.mk.injEq] at h
      rw [← h.2]
      exact hfiles
    · simp at h

theorem osRemove_get? (env : Env X) (p k : String) (w : World X) (h : p ≠ k) :
    (osRemove env p w).2.files.get? k = w.files.get? k := by
  unfold osRemove
  split
  · rename_i w1 hf
    simp [osFault_files_of env _ _ _ _ hf]
  · rename_i w1 hf
    have hfiles := osFault_files_of env _ _ _ _ hf
    split
    · simp [hfiles]
    · simp [hfiles, get?_erase_of_ne _ p k h]

theorem saveSnapshot_file_of (env : Env X) (m : Monitor) (S : Snapshot) (w w' : World X)
    (hsave : m.saveSnapshot env S w = (none, w')) :
    ∃ content, jsonMarshalIndent env S = .ok content ∧
      w'.files.get? m.snapshotPath = some content := by
  unfold Monitor.saveSnapshot at hsave
  simp only at hsave
  split at hsave
  · simp at hsave
  · rename_i w1 h1
    split at hsave
    · simp at hsave
    · rename_i content hm
      split at hsave
      · simp at hsave
      · rename_i w2 h2
        have hf2 := osWriteFile_ok env _ _ _ _ h2
        have hne := tmpPath_ne m.snapshotPath
        split at hsave
        · rename_i w3 h3
          simp only [Prod.mk.injEq, true_and] at hsave
          subst hsave
          obtain ⟨c, hc, hf3⟩ := osRename_ok env _ _ _ _ h3
          rw [hf2, GoMap.get?_set, if_pos rfl] at hc
          cases hc
          exact ⟨content, hm, by rw [hf3, GoMap.get?_set, if_pos rfl]⟩
        · rename_i e3 w3 h3
          have hf3 := osRename_err env _ _ _ _ _ h3
          have hrm : (osRemove env m.snapshotPath w3).2.files.get? (m.snapshotPath ++ ".tmp")
              = some content := by
            rw [osRemove_get? env _ _ _ (fun h => hne h.symm), hf3, hf2, GoMap.get?_set,
              if_pos rfl]
          split at hsave
          · simp at hsave
          · rename_i w5 h5
            simp only [Prod.mk.injEq, true_and] at hsave
            subst hsave
            obtain ⟨c, hc, hf5⟩ := osRename_ok env _ _ _ _ h5
            rw [hrm] at hc
            cases hc
            exact ⟨content, hm, by rw [hf5, GoMap.get?_set, if_pos rfl]⟩

theorem saveSnapshot_file (env : Env X) (m : Monitor) (S : Snapshot) (w : World X)
    (hsave : (m.saveSnapshot env S w).1 = none) :
    ∃ content, jsonMarshalIndent env S = .ok content ∧
      (m.saveSnapshot env S w).2.files.get? m.snapshotPath = some content := by
  apply saveSnapshot_file_of env m S w
  rw [← hsave]

theorem loadSnapshot_of_file (env : Env X) (m : Monitor) (w : World X) (content : Bytes)
    (S : Snapshot)
    (hfile : w.files.get? m.snapshotPath = some content)
    (hread : (osFault env (.readFile m.snapshotPath) w).1 = none)
    (hlen : content ≠ [])
    (hdec : jsonUnmarshal env content = .ok (some S)) :
    (m.loadSnapshot env w).1 = .ok S := by
  unfold Monitor.loadSnapshot osReadFile
  rcases hf : osFault env (.readFile m.snapshotPath) w with ⟨r, w1⟩
  rw [hf] at hread
  simp only at hread
  subst hread
  have hfiles := osFault_files_of env _ _ _ _ hf
  simp only
  rw [hfiles, hfile]
  simp only
  have hl : ¬ content.length = 0 := by
    intro h
    exact hlen (List.length_eq_zero.mp h)
  rw [if_neg hl, hdec]

/-- C8: for every snapshot `S`, if saveSnapshot of `S` succeeds and the text
layer of the JSON library reads back the document it wrote for `S`, then
loadSnapshot (whose read of the file does not fail) returns a mapping with
exactly the entries of `S`: the same keys and under every key a record equal
in every field, zero integers and empty strings included.  The loaded mapping
lists the entries in ascending key order. -/
theorem save_then_load (env : Env X) (m : Monitor) (S : Snapshot) (w : World X)
    (hwf : GoMap.WF S)
    (hcodec : ∀ b, env.jsonEncode (Snapshot.toJSON S) = .ok b →
      b ≠ [] ∧ env.jsonDecode b = .ok (Snapshot.toJSON S))
    (hsave : (m.saveSnapshot env S w).1 = none)
    (hread : (osFault env (.readFile m.snapshotPath) (m.saveSnapshot env S w).2).1 = none) :
    ∃ S', (m.loadSnapshot env (m.saveSnapshot env S w).2).1 = .ok S' ∧
      S'.Perm S ∧ GoMap.WF S' ∧ (∀ k, GoMap.get? S' k = GoMap.get? S k) ∧
      (S = [] → S' = []) := by
  obtain ⟨content, henc, hfile⟩ := saveSnapshot_file env m S w hsave
  obtain ⟨hne, hdec⟩ := hcodec content henc
  have hperm := sorted_entries_perm S
  refine ⟨sortSlice (fun a b : String × CourseInfo => stringLess a.1 b.1) S, ?_, hperm, ?_,
    get?_of_perm _ _ hperm hwf, ?_⟩
  · apply loadSnapshot_of_file env m _ content _ hfile hread hne
    unfold jsonUnmarshal
    rw [hdec]
    exact fromJSON_toJSON_snapshot S hwf
  · unfold GoMap.WF GoMap.keys
    rw [(hperm.map Prod.fst).nodup_iff]
    exact hwf
  · intro h
    rw [h]
    rfl

/-- Witness of `save_then_load`: a snapshot with records B and A, among whose
fields are zero integers and empty strings, is saved and loaded. -/
theorem save_then_load_witness :
    GoMap.WF snapshotBA ∧
    ((monitorWith [] true).saveSnapshot (oneDocumentEnv (Snapshot.toJSON snapshotBA))
      snapshotBA emptyWorld).1 = none ∧
    ((monitorWith [] true).loadSnapshot (oneDocumentEnv (Snapshot.toJSON snapshotBA))
      ((monitorWith [] true).saveSnapshot (oneDocumentEnv (Snapshot.toJSON snapshotBA))
        snapshotBA emptyWorld).2).1 = .ok [("A_1", recA), ("B_1", recB)] ∧
    ∃ S', ((monitorWith [] true).loadSnapshot (oneDocumentEnv (Snapshot.toJSON snapshotBA))
      ((monitorWith [] true).saveSnapshot (oneDocumentEnv (Snapshot.toJSON snapshotBA))
        snapshotBA emptyWorld).2).1 = .ok S' ∧ S'.Perm snapshotBA :=
  have h := save_then_load (oneDocumentEnv (Snapshot.toJSON snapshotBA))
    (monitorWith [] true) snapshotBA emptyWorld (by decide)
    (by
      intro b hb
      have hb' : b = [0x7b, 0x2e, 0x7d] := by
        simp [oneDocumentEnv] at hb
        exact hb.symm
      subst hb'
      exact ⟨by decide, by simp [oneDocumentEnv]⟩)
    (by decide) (by decide)
  ⟨by decide, by decide, by decide, h.imp (fun _ hS => ⟨hS.1, hS.2.1⟩)⟩

end StoreProofs

/-! ## Failed steps, waits and retries -/

theorem failuresThenWait_cons (e : Event) (rest : List Event) (h : e.isFailedStep = false) :
    failuresThenWait (e :: rest) = failuresThenWait rest := by
  cases rest with
  | nil => simp [failuresThenWait, h]
  | cons e' r => simp [failuresThenWait, h]

theorem RecoveryRun_shape (b : Int) (d : List Event) (out : Option (Option GoError))
    (c : Option Nat) (h : RecoveryRun b d out c) :
    failuresThenWait d = true ∧ retriesFromTop d = true ∧ startsAttempt d = true ∧
      d.countP Event.isFailedStep = (waitsOf d).length := by
  induction h with
  | running b => exact ⟨rfl, rfl, rfl, rfl⟩
  | cancelledAtTop b => exact ⟨rfl, rfl, rfl, rfl⟩
  | succeeded b roundID client => exact ⟨rfl, rfl, rfl, rfl⟩
  | cancelledInWait b steps hf =>
    cases hf <;> exact ⟨rfl, rfl, rfl, rfl⟩
  | retried b steps rest out c hf _ ih =>
    obtain ⟨ih1, ih2, ih3, ih4⟩ := ih
    have hw : failuresThenWait (.wait b true :: rest) = true := by
      rw [failuresThenWait_cons (.wait b true) rest rfl]; exact ih1
    have hr : retriesFromTop (.wait b true :: rest) = true := by
      simp [retriesFromTop, ih2, ih3]
    have hcount : (Event.wait b true :: rest).countP Event.isFailedStep
        = (waitsOf rest).length := by
      rw [List.countP_cons_of_neg]
      · exact ih4
      · simp [Event.isFailedStep]
    have hwaits : ∀ pre : List Event, waitsOf pre = [] →
        (waitsOf (pre ++ .wait b true :: rest)).length = (waitsOf rest).length + 1 := by
      intro pre hpre
      rw [waitsOf_append, hpre]
      rfl
    cases hf with
    | login err =>
      refine ⟨?_, ?_, rfl, ?_⟩
      · simpa [failuresThenWait, Event.isFailedStep, Event.isWait] using hw
      · simpa [retriesFromTop] using hr
      · have h1 : [Event.ctxCheck false, Event.login (some err)].countP Event.isFailedStep
            = 1 := rfl
        rw [hwaits [.ctxCheck false, .login (some err)] rfl, List.countP_append, hcount, h1]
        omega
    | getRound err =>
      refine ⟨?_, ?_, rfl, ?_⟩
      · simpa [failuresThenWait, Event.isFailedStep, Event.isWait] using hw
      · simpa [retriesFromTop] using hr
      · have h1 : [Event.ctxCheck false, Event.login none,
            Event.getRound (.error err)].countP Event.isFailedStep = 1 := rfl
        rw [hwaits [.ctxCheck false, .login none, .getRound (.error err)] rfl,
          List.countP_append, hcount, h1]
        omega
    | enterRound roundID err =>
      refine ⟨?_, ?_, rfl, ?_⟩
      · simpa [failuresThenWait, Event.isFailedStep, Event.isWait] using hw
      · simpa [retriesFromTop] using hr
      · have h1 : [Event.ctxCheck false, Event.login none, Event.getRound (.ok roundID),
            Event.enterRound roundID (some err)].countP Event.isFailedStep = 1 := rfl
        rw [hwaits [.ctxCheck false, .login none, .getRound (.ok roundID),
            .enterRound roundID (some err)] rfl, List.countP_append, hcount, h1]
        omega

section RecoveryProtocol

variable {X : Type}

/-- C9: within one call of reloginWithRetry the wait after the n-th failed
attempt, n from 1, is min(2^n, 60) seconds; no wait exceeds 60 seconds; the
waits never decrease; and the first wait of every call is 2 seconds, whatever
the state of the monitor and of the world at the call.  There is one wait for
each failed step.  A run with seven failed logins waits 2, 4, 8, 16, 32, 60
and 60 seconds. -/
theorem relogin_backoff_growth (env : Env X) (fuel : Nat) (m : Monitor) (w : World X) :
    waitsOf (eventsSince w (m.reloginWithRetry env fuel w).2.2)
      = (List.range (waitsOf (eventsSince w (m.reloginWithRetry env fuel w).2.2)).length).map
          (fun i => min ((2 : Int) ^ (i + 1)) 60 * Second) ∧
    (∀ d ∈ waitsOf (eventsSince w (m.reloginWithRetry env fuel w).2.2), d ≤ 60 * Second) ∧
    (waitsOf (eventsSince w (m.reloginWithRetry env fuel w).2.2)).Sorted (· ≤ ·) ∧
    (∀ d, (waitsOf (eventsSince w (m.reloginWithRetry env fuel w).2.2)).head? = some d →
      d = 2 * Second) ∧
    (eventsSince w (m.reloginWithRetry env fuel w).2.2).countP Event.isFailedStep
      = (waitsOf (eventsSince w (m.reloginWithRetry env fuel w).2.2)).length ∧
    waitsOf (eventsSince emptyWorld ((monitorWith [] true).reloginWithRetry
        (scriptedEnv portalAB none none 21 100) 10 emptyWorld).2.2)
      = [2 * Second, 4 * Second, 8 * Second, 16 * Second, 32 * Second, 60 * Second,
          60 * Second] := by
  obtain ⟨d, c, hd, hrun, _, _⟩ := relogin_events env fuel m w
  have hw : waitsOf (eventsSince w (m.reloginWithRetry env fuel w).2.2) = waitsOf d := by
    rw [hd]; rfl
  have hform := RecoveryRun_waits _ _ _ _ hrun
  have hfun : (fun i => nextBackoff^[i] (2 * Second))
      = fun i => min ((2 : Int) ^ (i + 1)) 60 * Second := by
    funext i
    exact backoff_bounds i
  rw [hfun] at hform
  have hcnt : (eventsSince w (m.reloginWithRetry env fuel w).2.2).countP Event.isFailedStep
      = (waitsOf d).length := by
    rw [hd, List.countP_cons_of_neg]
    · exact (RecoveryRun_shape _ _ _ _ hrun).2.2.2
    · simp [Event.isFailedStep]
  rw [hw]
  refine ⟨hform, ?_, ?_, ?_, hcnt, by decide⟩
  · intro x hx
    rw [hform] at hx
    obtain ⟨i, _, rfl⟩ := List.mem_map.mp hx
    have hs : (0 : Int) ≤ Second := by decide
    exact mul_le_mul_of_nonneg_right (min_le_right _ _) hs
  · rw [hform]
    exact sorted_map_range _ capped_mono _
  · intro x hx
    rw [hform] at hx
    cases hk : (waitsOf d).length with
    | zero => rw [hk] at hx; simp at hx
    | succ k =>
      rw [hk, List.range_succ_eq_map] at hx
      simp at hx
      rw [← hx]

end RecoveryProtocol

/-! ## Idempotent re-run -/

theorem diffAdded_of_keys_subset (m : Monitor) (C : Snapshot)
    (h : ∀ e ∈ C, e.1 ∈ GoMap.keys m.lastResult) : m.diffAdded C = [] := by
  rw [List.eq_nil_iff_forall_not_mem]
  intro r hr
  obtain ⟨k, hin, hk⟩ := (mem_diffAdded m C r).mp hr
  exact hk (h (k, r) hin)

/-- C11: for every snapshot `P`, diffAdded with previous snapshot `P` and
current snapshot `P` returns the empty sequence; the same holds when the
current snapshot is `P` visited in another order, and whenever every key of
the current snapshot is a key of `P`. -/
theorem diffAdded_idempotent (m : Monitor) :
    m.diffAdded m.lastResult = [] ∧
    (∀ C, C.Perm m.lastResult → m.diffAdded C = []) ∧
    (∀ C, (∀ k ∈ GoMap.keys C, k ∈ GoMap.keys m.lastResult) → m.diffAdded C = []) := by
  refine ⟨?_, ?_, ?_⟩
  · apply diffAdded_of_keys_subset
    intro e he
    exact List.mem_map.mpr ⟨e, he, rfl⟩
  · intro C hperm
    apply diffAdded_of_keys_subset
    intro e he
    exact List.mem_map.mpr ⟨e, hperm.mem_iff.mp he, rfl⟩
  · intro C hsub
    apply diffAdded_of_keys_subset
    intro e he
    exact hsub e.1 (List.mem_map.mpr ⟨e, he, rfl⟩)

/-! ## What one keyword's search returns -/

theorem mem_set {V : Type} (m : GoMap V) (k : String) (v : V) (e : String × V)
    (h : e ∈ GoMap.set m k v) : e = (k, v) ∨ e ∈ m := by
  induction m with
  | nil =>
    simp only [GoMap.set, List.mem_singleton] at h
    exact Or.inl h
  | cons e0 rest ih =>
    obtain ⟨k0, v0⟩ := e0
    by_cases h0 : k0 = k
    · simp only [GoMap.set, h0, if_true, List.mem_cons] at h
      rcases h with h | h
      · exact Or.inl h
      · exact Or.inr (List.mem_cons_of_mem _ h)
    · simp only [GoMap.set, h0, if_false, List.mem_cons] at h
      rcases h with h | h
      · exact Or.inr (by rw [h]; exact List.mem_cons_self _ _)
      · rcases ih h with h | h
        · exact Or.inl h
        · exact Or.inr (List.mem_cons_of_mem _ h)

theorem set_keyed (u : Snapshot) (c : CourseInfo) (h : KeyedByUniqueKey u) :
    KeyedByUniqueKey (GoMap.set u c.UniqueKey c) := by
  intro e he
  rcases mem_set u _ _ e he with rfl | he
  · rfl
  · exact h e he

theorem uniq_foldl_invariant (courses : List CourseInfo) (u : Snapshot)
    (hwf : GoMap.WF u) (hkey : KeyedByUniqueKey u) :
    GoMap.WF (courses.foldl (fun uniq course => GoMap.set uniq course.UniqueKey course) u) ∧
    KeyedByUniqueKey
      (courses.foldl (fun uniq course => GoMap.set uniq course.UniqueKey course) u) := by
  induction courses generalizing u with
  | nil => exact ⟨hwf, hkey⟩
  | cons c rest ih =>
    rw [List.foldl_cons]
    exact ih _ (GoMap.WF_set u c.UniqueKey c hwf) (set_keyed u c hkey)

section SearchResults

variable {X : Type}

theorem SearchAllModules_loop_invariant (env : Env X) (client : Nat) (kw : String)
    (mts : List String) (uniq : Snapshot) (w : World X) (u' : Snapshot)
    (hwf : GoMap.WF uniq) (hkey : KeyedByUniqueKey uniq)
    (h : (jwxt.SearchAllModules.loop env client kw mts uniq w).1 = .ok u') :
    GoMap.WF u' ∧ KeyedByUniqueKey u' := by
  induction mts generalizing uniq w with
  | nil =>
    simp only [jwxt.SearchAllModules.loop, Except.ok.injEq] at h
    subst h
    exact ⟨hwf, hkey⟩
  | cons mt rest ih =>
    unfold jwxt.SearchAllModules.loop at h
    split at h
    · simp at h
    · rename_i courses x hs
      simp only at h
      split at h
      · simp at h
      · rename_i x2 ht
        obtain ⟨hwf2, hkey2⟩ := uniq_foldl_invariant courses uniq hwf hkey
        exact ih _ _ hwf2 hkey2 h

theorem SearchAllModules_nodup (env : Env X) (client : Nat) (kw : String) (w : World X)
    (courses : List CourseInfo) (h : (jwxt.SearchAllModules env client kw w).1 = .ok courses) :
    (courses.map CourseInfo.UniqueKey).Nodup := by
  unfold jwxt.SearchAllModules at h
  split at h
  · simp at h
  · rename_i uniq w1 hl
    simp only [Except.ok.injEq] at h
    subst h
    have hl' : (jwxt.SearchAllModules.loop env client kw ModuleTypes [] w).1 = .ok uniq := by
      rw [hl]
    obtain ⟨hwf, hkey⟩ := SearchAllModules_loop_invariant env client kw ModuleTypes [] w uniq
      (by simp [GoMap.WF, GoMap.keys]) (by intro e he; simp at he) hl'
    rw [List.map_map]
    have heq : List.map (CourseInfo.UniqueKey ∘ Prod.snd) uniq = GoMap.keys uniq := by
      unfold GoMap.keys
      apply List.map_congr_left
      intro e he
      exact hkey e he
    rw [heq]
    exact hwf

end SearchResults

/-! ## The merge across keywords -/

theorem mem_searchResultsOf (d : List Event) (p : String × List CourseInfo)
    (h : p ∈ searchResultsOf d) : Event.search p.1 (.ok p.2) ∈ d := by
  induction d with
  | nil => simp [searchResultsOf] at h
  | cons e rest ih =>
    cases e with
    | search kw r =>
      cases r with
      | ok courses =>
        simp only [searchResultsOf, List.mem_cons] at h
        rcases h with rfl | h
        · exact List.mem_cons_self _ _
        · exact List.mem_cons_of_mem _ (ih h)
      | error err => exact List.mem_cons_of_mem _ (ih h)
    | _ => exact List.mem_cons_of_mem _ (ih h)

theorem searchResultsOf_split (d : List Event) (pre post : List (String × List CourseInfo))
    (p : String × List CourseInfo) (h : searchResultsOf d = pre ++ p :: post) :
    ∃ d1 d2, d = d1 ++ Event.search p.1 (.ok p.2) :: d2 ∧ searchResultsOf d1 = pre ∧
      searchResultsOf d2 = post := by
  induction d generalizing pre with
  | nil => simp [searchResultsOf] at h
  | cons e rest ih =>
    have hskip : searchResultsOf (e :: rest) = searchResultsOf rest →
        ∃ d1 d2, e :: rest = d1 ++ Event.search p.1 (.ok p.2) :: d2 ∧
          searchResultsOf d1 = pre ∧ searchResultsOf d2 = post := by
      intro hs
      rw [hs] at h
      obtain ⟨d1, d2, hd, h1, h2⟩ := ih pre h
      refine ⟨e :: d1, d2, by rw [hd]; rfl, ?_, h2⟩
      have : searchResultsOf (e :: d1) = searchResultsOf d1 := by
        cases e with
        | search kw r =>
          cases r with
          | ok courses => simp [searchResultsOf] at hs
          | error err => rfl
        | _ => rfl
      rw [this, h1]
    cases e with
    | search kw r =>
      cases r with
      | ok courses =>
        simp only [searchResultsOf] at h
        cases pre with
        | nil =>
          simp only [List.nil_append, List.cons.injEq] at h
          obtain ⟨hp, hpost⟩ := h
          subst hp
          exact ⟨[], rest, rfl, rfl, hpost⟩
        | cons q pre' =>
          simp only [List.cons_append, List.cons.injEq] at h
          obtain ⟨hq, hrest⟩ := h
          obtain ⟨d1, d2, hd, h1, h2⟩ := ih pre' hrest
          refine ⟨Event.search kw (.ok courses) :: d1, d2, by rw [hd]; rfl, ?_, h2⟩
          simp only [searchResultsOf, h1, hq]
      | error err => exact hskip rfl
    | _ => exact hskip rfl

theorem mem_scrapedOf (d : List Event) (c : CourseInfo) :
    c ∈ scrapedOf d ↔ ∃ p ∈ searchResultsOf d, c ∈ p.2 := by
  induction d with
  | nil => simp [scrapedOf, searchResultsOf]
  | cons e rest ih =>
    cases e with
    | search kw r =>
      cases r with
      | ok courses =>
        simp only [scrapedOf, searchResultsOf, List.mem_append, List.mem_cons, ih]
        constructor
        · rintro (h | ⟨p, hp, hc⟩)
          · exact ⟨(kw, courses), Or.inl rfl, h⟩
          · exact ⟨p, Or.inr hp, hc⟩
        · rintro ⟨p, rfl | hp, hc⟩
          · exact Or.inl hc
          · exact Or.inr ⟨p, hp, hc⟩
      | error err => simpa [scrapedOf, searchResultsOf] using ih
    | _ => simpa [scrapedOf, searchResultsOf] using ih

theorem searchResultsOf_keywords (d : List Event) (h : ∀ e ∈ d, e.isFailedSearch = false) :
    (searchResultsOf d).map Prod.fst = searchesOf d := by
  induction d with
  | nil => rfl
  | cons e rest ih =>
    have ih' := ih (fun x hx => h x (List.mem_cons_of_mem _ hx))
    cases e with
    | search kw r =>
      cases r with
      | ok courses =>
        simp only [searchResultsOf, List.map_cons, ih']
        rfl
      | error err =>
        have := h _ (List.mem_cons_self _ _)
        simp [Event.isFailedSearch] at this
    | _ => simpa [searchResultsOf, searchesOf, Event.searchKeyword] using ih'

section AcrossKeywords

variable {X : Type}

theorem query_loop_results_nodup (env : Env X) (m : Monitor) (kws : List String)
    (current : Snapshot) (w : World X) :
    ∃ d, (queryCurrentCourses.loop env m kws current w).2.trace = w.trace ++ d ∧
      ∀ kw courses, Event.search kw (.ok courses) ∈ d →
        (courses.map CourseInfo.UniqueKey).Nodup := by
  induction kws generalizing current w with
  | nil => exact ⟨[], by simp [queryCurrentCourses.loop], by simp⟩
  | cons kw rest ih =>
    unfold queryCurrentCourses.loop
    split
    · rename_i w1 hc
      have ht := pair_trace_of _ _ _ hc
      have hb : (ctxDone env w).1 = true := by rw [hc]
      rw [ctxDone_trace, hb] at ht
      exact ⟨[.ctxCheck true], ht, by simp⟩
    · rename_i w1 hc
      have ht := pair_trace_of _ _ _ hc
      have hb : (ctxDone env w).1 = false := by rw [hc]
      rw [ctxDone_trace, hb] at ht
      split
      · rename_i err w2 hs
        have ht2 := pair_trace_of _ _ _ hs
        rw [SearchAllModules_trace, ht] at ht2
        exact ⟨[.ctxCheck false, .search kw (.error err)], by simp [ht2], by simp⟩
      · rename_i courses w2 hs
        have ht2 := pair_trace_of _ _ _ hs
        rw [SearchAllModules_trace, ht] at ht2
        have hnd : (courses.map CourseInfo.UniqueKey).Nodup :=
          SearchAllModules_nodup env m.client kw w1 courses (by rw [hs])
        obtain ⟨d, hd, hall⟩ := ih (queryCurrentCourses.merge current courses)
          (w2.emit (.search kw (.ok courses)))
        refine ⟨[.ctxCheck false, .search kw (.ok courses)] ++ d, by simp [hd, ht2], ?_⟩
        intro kw' courses' hmem
        simp only [List.cons_append, List.nil_append, List.mem_cons, reduceCtorEq, false_or,
          Event.search.injEq, Except.ok.injEq] at hmem
        rcases hmem with ⟨_, rfl⟩ | hmem
        · exact hnd
        · exact hall kw' courses' hmem

theorem query_results_nodup (env : Env X) (m : Monitor) (w : World X) (kw : String)
    (courses : List CourseInfo)
    (h : Event.search kw (.ok courses) ∈ eventsSince w (m.queryCurrentCourses env w).2) :
    (courses.map CourseInfo.UniqueKey).Nodup := by
  obtain ⟨d, hd, hall⟩ := query_loop_results_nodup env m m.config.CourseList [] w
  have hev : eventsSince w (m.queryCurrentCourses env w).2 = d :=
    eventsSince_of_append w _ d hd
  rw [hev] at h
  exact hall kw courses h

/-- C12: when the query succeeds, every configured keyword was searched, in
configuration order, and each search returned one record per key.  The key set
of the merged result is the union, over the keywords, of the `UniqueKey()` of
the returned records other than "_".  For every such key the merged record is
the one returned for the last keyword, in configuration order, whose result
holds a record with that key. -/
theorem query_last_write_wins (env : Env X) (m : Monitor) (w : World X) (current : Snapshot)
    (hq : (m.queryCurrentCourses env w).1 = .ok current) :
    (searchResultsOf (eventsSince w (m.queryCurrentCourses env w).2)).map Prod.fst
      = m.config.CourseList ∧
    (∀ p ∈ searchResultsOf (eventsSince w (m.queryCurrentCourses env w).2),
      (p.2.map CourseInfo.UniqueKey).Nodup) ∧
    (∀ k, k ∈ GoMap.keys current ↔
      k ≠ "_" ∧ ∃ p ∈ searchResultsOf (eventsSince w (m.queryCurrentCourses env w).2),
        ∃ c ∈ p.2, c.UniqueKey = k) ∧
    (∀ pre p post r,
      searchResultsOf (eventsSince w (m.queryCurrentCourses env w).2) = pre ++ p :: post →
      r ∈ p.2 → r.UniqueKey ≠ "_" →
      (∀ q ∈ post, ∀ c ∈ q.2, c.UniqueKey ≠ r.UniqueKey) →
      GoMap.get? current r.UniqueKey = some r) := by
  obtain ⟨d, hd, hspec⟩ := query_events env m w
  have hev : eventsSince w (m.queryCurrentCourses env w).2 = d :=
    eventsSince_of_append w _ d hd
  have hnd : ∀ p ∈ searchResultsOf d, (p.2.map CourseInfo.UniqueKey).Nodup := by
    intro p hp
    apply query_results_nodup env m w p.1 p.2
    rw [hev]
    exact mem_searchResultsOf d p hp
  rw [hev]
  rw [hq] at hspec
  obtain ⟨_, hnofail, hm, hsearch⟩ := hspec
  refine ⟨?_, hnd, ?_, ?_⟩
  · rw [searchResultsOf_keywords d hnofail, hsearch]
  · intro k
    constructor
    · intro hk
      obtain ⟨v, hv⟩ := (GoMap.mem_keys_iff_get? current k).mp hk
      rw [hm] at hv
      obtain ⟨hin, hkey, hne⟩ := merge_empty_get?_some _ k v hv
      obtain ⟨p, hp, hc⟩ := (mem_scrapedOf d v).mp hin
      exact ⟨hne, p, hp, v, hc, hkey⟩
    · rintro ⟨hne, p, hp, c, hc, rfl⟩
      have hin : c ∈ scrapedOf d := (mem_scrapedOf d c).mpr ⟨p, hp, hc⟩
      rw [hm]
      exact (merge_empty_mem_keys _ c hin).mpr hne
  · intro pre p post r hsplit hr hne hpost
    obtain ⟨d1, d2, hd12, _, h2⟩ := searchResultsOf_split d pre post p hsplit
    obtain ⟨a, b, hab⟩ := List.append_of_mem hr
    have hpnd := hnd p (by rw [hsplit]; simp)
    rw [hab, List.map_append, List.map_cons, List.nodup_append] at hpnd
    have hb : ∀ c ∈ b, c.UniqueKey ≠ r.UniqueKey := by
      intro c hc heq
      have := (List.nodup_cons.mp hpnd.2.1).1
      apply this
      rw [← heq]
      exact List.mem_map.mpr ⟨c, hc, rfl⟩
    have hscr : scrapedOf d = (scrapedOf d1 ++ a) ++ r :: (b ++ scrapedOf d2) := by
      rw [hd12, scrapedOf_append]
      have : scrapedOf (Event.search p.1 (.ok p.2) :: d2) = p.2 ++ scrapedOf d2 := rfl
      rw [this, hab]
      simp
    rw [hm, hscr]
    apply merge_empty_keeps_last _ _ r hne
    intro c hc
    rcases List.mem_append.mp hc with hc | hc
    · exact hb c hc
    · obtain ⟨q, hq', hcq⟩ := (mem_scrapedOf d2 c).mp hc
      rw [h2] at hq'
      exact hpost q hq' c hcq

/-- Witness of `query_last_write_wins`: three keywords; the first search returns
A and B, the second and the third return a later state of A and C.  The merged
result holds the later state of A, as the last keyword returned it. -/
theorem query_last_write_wins_witness :
    ((monitorThree [] true).queryCurrentCourses
      (scriptedEnv portalOverlap none none 0 100) emptyWorld).1
        = .ok [("A_1", recALater), ("B_1", recB), ("C_1", recC)] ∧
    searchResultsOf (eventsSince emptyWorld ((monitorThree [] true).queryCurrentCourses
      (scriptedEnv portalOverlap none none 0 100) emptyWorld).2)
        = [("k1", [recA, recB]), ("k2", [recALater, recC])] ++
          ("k3", [recALater, recC]) :: [] ∧
    recA ≠ recALater ∧
    GoMap.get? [("A_1", recALater), ("B_1", recB), ("C_1", recC)] recALater.UniqueKey
      = some recALater :=
  have h := query_last_write_wins (scriptedEnv portalOverlap none none 0 100)
    (monitorThree [] true) emptyWorld [("A_1", recALater), ("B_1", recB), ("C_1", recC)]
    (by decide)
  ⟨by decide, by decide, by decide,
    h.2.2.2 [("k1", [recA, recB]), ("k2", [recALater, recC])] ("k3", [recALater, recC]) []
      recALater (by decide) (by decide) (by decide) (by simp)⟩

end AcrossKeywords

/-! ## Keys and records agree -/

theorem keys_of_stored_records (current : Snapshot) (hkey : KeyedByUniqueKey current)
    (out : List CourseInfo) (ks : List String)
    (h : out.map some = ks.map (GoMap.get? current)) : ks = out.map CourseInfo.UniqueKey := by
  induction out generalizing ks with
  | nil =>
    cases ks with
    | nil => rfl
    | cons k ks' => simp at h
  | cons r rest ih =>
    cases ks with
    | nil => simp at h
    | cons k ks' =>
      simp only [List.map_cons, List.cons.injEq] at h
      obtain ⟨hr, hrest⟩ := h
      have hmem := GoMap.mem_of_get? current k r hr.symm
      have hk := hkey (k, r) hmem
      simp only at hk
      rw [List.map_cons, hk, ih ks' hrest]

section Invariant

variable {X : Type}

theorem query_result_keys_valid (env : Env X) (m : Monitor) (w : World X) (current : Snapshot)
    (hq : (m.queryCurrentCourses env w).1 = .ok current) : ∀ e ∈ current, e.1 ≠ "_" := by
  obtain ⟨hwf, _⟩ := query_result_invariant env m w current hq
  have hm := (query_ok_merge env m w current hq).1
  intro e he
  have hg := GoMap.get?_of_mem current hwf e.1 e.2 he
  rw [hm] at hg
  exact (merge_empty_get?_some _ e.1 e.2 hg).2.2

theorem runRound_ok_lastResult (env : Env X) (fuel : Nat) (m : Monitor) (w : World X)
    (current : Snapshot) (hq : (m.queryCurrentCourses env w).1 = .ok current) :
    (m.runRound env fuel w).1 = true ∧ (m.runRound env fuel w).2.1.lastResult = current ∧
      (m.runRound env fuel w).2.1.hasBaseline = true := by
  cases hb : m.hasBaseline with
  | false =>
    rw [runRound_ok_baseline env fuel m w current hb hq]
    exact ⟨rfl, rfl, rfl⟩
  | true =>
    rw [runRound_ok_diff env fuel m w current hb hq]
    exact ⟨rfl, rfl, hb⟩

/-- C13: in every mapping queryCurrentCourses returns, no key occurs twice, each
key is the `UniqueKey()` of the record stored under it, and no key is "_".
Hence after every cycle whose query succeeds, with or without baseline, the
in-memory snapshot is that mapping and has these properties.  On such a
current snapshot, whatever the previous snapshot, every record diffAdded
returns is stored under its own `UniqueKey()`, so the mapping keys of the
returned records are their `UniqueKey()`s, in strictly ascending order, and no
two returned records share a key. -/
theorem query_key_record_invariant (env : Env X) (fuel : Nat) (m : Monitor) (w : World X)
    (current : Snapshot) (hq : (m.queryCurrentCourses env w).1 = .ok current) :
    (GoMap.WF current ∧ KeyedByUniqueKey current ∧ ∀ e ∈ current, e.1 ≠ "_") ∧
    ((m.runRound env fuel w).1 = true ∧
      (m.runRound env fuel w).2.1.lastResult = current ∧
      GoMap.WF (m.runRound env fuel w).2.1.lastResult ∧
      KeyedByUniqueKey (m.runRound env fuel w).2.1.lastResult ∧
      ∀ e ∈ (m.runRound env fuel w).2.1.lastResult, e.1 ≠ "_") ∧
    (∀ previous : Monitor,
      (∀ r ∈ previous.diffAdded current, GoMap.get? current r.UniqueKey = some r) ∧
      (∀ ks, (previous.diffAdded current).map some = ks.map (GoMap.get? current) →
        ks = (previous.diffAdded current).map CourseInfo.UniqueKey) ∧
      ((previous.diffAdded current).map CourseInfo.UniqueKey).Sorted (· < ·) ∧
      ((previous.diffAdded current).map CourseInfo.UniqueKey).Nodup) := by
  obtain ⟨hwf, hkey⟩ := query_result_invariant env m w current hq
  have hvalid := query_result_keys_valid env m w current hq
  obtain ⟨hret, hlast, _⟩ := runRound_ok_lastResult env fuel m w current hq
  refine ⟨⟨hwf, hkey, hvalid⟩, ⟨hret, hlast, ?_, ?_, ?_⟩, ?_⟩
  · rw [hlast]; exact hwf
  · rw [hlast]; exact hkey
  · rw [hlast]; exact hvalid
  · intro previous
    have hnd := diffAdded_keys_nodup previous current hwf hkey
    refine ⟨?_, ?_, (diffAdded_sorted_le previous current).lt_of_le hnd, hnd⟩
    · intro r hr
      obtain ⟨k, hin, _⟩ := (mem_diffAdded previous current r).mp hr
      have hk := hkey (k, r) hin
      simp only at hk
      rw [hk]
      exact GoMap.get?_of_mem current hwf k r hin
    · intro ks hks
      exact keys_of_stored_records current hkey _ ks hks

/-- Witness of `query_key_record_invariant`: no baseline, previous snapshot
empty; the portal returns A, a record without identifiers, and B. -/
theorem query_key_record_invariant_witness :
    ((monitorWith [] false).queryCurrentCourses
      (scriptedEnv portalWithBlank none none 0 100) emptyWorld).1
        = .ok [("A_1", recA), ("B_1", recB)] ∧
    ((monitorWith [] false).runRound
      (scriptedEnv portalWithBlank none none 0 100) 3 emptyWorld).2.1.lastResult
        = [("A_1", recA), ("B_1", recB)] ∧
    (monitorWith [("B_1", recB)] true).diffAdded [("A_1", recA), ("B_1", recB)] = [recA] ∧
    (((monitorWith [("B_1", recB)] true).diffAdded [("A_1", recA), ("B_1", recB)]).map
      CourseInfo.UniqueKey).Sorted (· < ·) :=
  have h := query_key_record_invariant (scriptedEnv portalWithBlank none none 0 100) 3
    (monitorWith [] false) emptyWorld [("A_1", recA), ("B_1", recB)] (by decide)
  ⟨by decide, h.2.1.2.1, by decide, (h.2.2 (monitorWith [("B_1", recB)] true)).2.2.1⟩

end Invariant
